import Mathlib

/-!
Verification of the bitcask-style key-value storage engine.

The definitions below are a shallow embedding of the Rust sources:
  * `src/data/log_record.rs` (record codec, CRC32),
  * `src/data/data_file.rs`  (positional decode `read_log_record`),
  * `src/db.rs`              (engine: open/replay, put/get/delete, append/rotation),
  * `src/batch.rs`           (write batches and the sequence-number scheme).

Machine integers are modelled as `Nat`; byte buffers as `List Nat` whose
entries are below 256; segment files as byte lists indexed by segment id;
fallible Rust functions return the `Res` type, whose `panic` constructor
models a Rust panic (a failed `unwrap` or an unknown record-type byte).
-/

namespace KV

/-- Association-list lookup (models `HashMap::get` / `BTreeMap::get`). -/
def alLookup {α β : Type} [DecidableEq α] : List (α × β) → α → Option β
  | [], _ => none
  | (a, b) :: rest, k => if a = k then some b else alLookup rest k

/-- Remove every binding of a key. -/
def alErase {α β : Type} [DecidableEq α] : List (α × β) → α → List (α × β)
  | [], _ => []
  | (a, b) :: rest, k => if a = k then alErase rest k else (a, b) :: alErase rest k

/-- Insert-or-overwrite a binding (models `HashMap::insert` / `BTreeMap` entry update). -/
def alInsert {α β : Type} [DecidableEq α] (l : List (α × β)) (k : α) (v : β) : List (α × β) :=
  (k, v) :: alErase l k

/-- All entries of a byte buffer are in range (Rust buffers are `Vec<u8>`). -/
abbrev Bytes (l : List Nat) : Prop := ∀ b ∈ l, b < 256

/-! ## Varints (prost length delimiters, base-128 little-endian groups) -/

/-- Fuel-driven LEB128 encoder; the fuel only serves termination and is
irrelevant once it dominates the byte count (see `encodeVarint_unfold`). -/
def encodeVarintFuel : Nat → Nat → List Nat
  | 0, n => [n]
  | fuel + 1, n => if n < 128 then [n] else (n % 128 + 128) :: encodeVarintFuel fuel (n / 128)

/-- `prost::encode_length_delimiter`: unsigned LEB128. -/
def encodeVarint (n : Nat) : List Nat := encodeVarintFuel n n

/-- `prost::length_delimiter_len`. -/
def lengthDelimiterLen (n : Nat) : Nat := (encodeVarint n).length

/-- `prost::decode_length_delimiter`, reading at most `fuel` bytes (prost caps varints
at 10 bytes); `none` models the decoding error, which the Rust callers `unwrap`. -/
def decodeVarint : Nat → List Nat → Option (Nat × List Nat)
  | 0, _ => none
  | _ + 1, [] => none
  | fuel + 1, b :: rest =>
    if b < 128 then some (b, rest)
    else
      match decodeVarint fuel rest with
      | none => none
      | some (v, rest₂) => some (b % 128 + 128 * v, rest₂)

/-! ## CRC-32 (IEEE polynomial, reflected; the algorithm of the `crc32fast` crate) -/

def crcPoly : Nat := 0xEDB88320

def crcRound (c : Nat) : Nat :=
  if c % 2 = 1 then (c / 2) ^^^ crcPoly else c / 2

def crcRounds : Nat → Nat → Nat
  | 0, c => c
  | k + 1, c => crcRounds k (crcRound c)

def crcStep (c b : Nat) : Nat := crcRounds 8 (c ^^^ b)

def crc32 (l : List Nat) : Nat := (l.foldl crcStep 0xFFFFFFFF) ^^^ 0xFFFFFFFF

/-! ## Byte-order helpers (`bytes::BufMut::put_u32` / `Buf::get_u32`, big-endian) -/

def u32be (n : Nat) : List Nat :=
  [n / 2 ^ 24 % 256, n / 2 ^ 16 % 256, n / 2 ^ 8 % 256, n % 256]

def getU32be (l : List Nat) : Nat :=
  l.getD 0 0 * 2 ^ 24 + l.getD 1 0 * 2 ^ 16 + l.getD 2 0 * 2 ^ 8 + l.getD 3 0

/-! ## Log records (`src/data/log_record.rs`) -/

inductive LogRecordType where
  | NORMAL
  | DELETED
  | TXNFINISH
deriving DecidableEq, Repr

def LogRecordType.toU8 : LogRecordType → Nat
  | .NORMAL => 1
  | .DELETED => 2
  | .TXNFINISH => 3

/-- `LogRecordType::from_u8`; `none` models the `panic!` on an unknown tag. -/
def LogRecordType.fromU8 : Nat → Option LogRecordType
  | 1 => some .NORMAL
  | 2 => some .DELETED
  | 3 => some .TXNFINISH
  | _ => none

structure LogRecord where
  key : List Nat
  value : List Nat
  rec_type : LogRecordType
deriving DecidableEq, Repr

structure LogRecordPos where
  file_id : Nat
  offset : Nat
deriving DecidableEq, Repr

/-- The checksummed portion: type byte, the two size varints, key, value. -/
def LogRecord.encodeBody (r : LogRecord) : List Nat :=
  r.rec_type.toU8 :: (encodeVarint r.key.length ++ encodeVarint r.value.length ++ r.key ++ r.value)

/-- `LogRecord::get_crc`. -/
def LogRecord.getCrc (r : LogRecord) : Nat := crc32 r.encodeBody

/-- `LogRecord::encode`. -/
def LogRecord.encode (r : LogRecord) : List Nat := r.encodeBody ++ u32be r.getCrc

/-- Flip bit `j` of the byte at index `i`. -/
def flipAt (l : List Nat) (i j : Nat) : List Nat := l.set i (l.getD i 0 ^^^ 2 ^ j)

/-! ## Errors (`src/errors.rs`) and outcomes -/

inductive Errors where
  | FailedToReadFromDataFile
  | FailedToWriteToDataFile
  | FailedToSyncFile
  | FailedToOpenDataFile
  | KeyIsEmpty
  | IndexUpdateFailed
  | KeyNotFound
  | DataFileNotFound
  | DirPathIsEmpty
  | DataFileSizeTooSmall
  | FailedToCreateDatabaseDir
  | FailedToReadDatabaseDir
  | DataDirectoryCorrupted
  | ReadDataFileEOF
  | InvalidLogRecordCrc
  | ExceddMaxBatchNum
deriving DecidableEq, Repr

/-- Outcome of a fallible Rust computation: `Ok`, `Err`, or a panic. -/
inductive Res (α : Type) where
  | ok (a : α)
  | err (e : Errors)
  | panic
deriving DecidableEq, Repr

def Res.bind {α β : Type} : Res α → (α → Res β) → Res β
  | .ok a, f => f a
  | .err e, _ => .err e
  | .panic, _ => .panic

/-! ## Positional decode (`DataFile::read_log_record`, `src/data/data_file.rs`) -/

/-- `max_log_record_header_size()`: 1 type byte plus two maximal u32 varints. -/
def maxLogRecordHeaderSize : Nat := 1 + 5 + 5

/-- A positional read of `len` bytes at `off` into a zeroed buffer: `read_at`
fills what the file holds and leaves the rest of the buffer zero. -/
def readBytes (file : List Nat) (off len : Nat) : List Nat :=
  (file.drop off).take len ++ List.replicate (len - ((file.drop off).take len).length) 0

/-- `DataFile::read_log_record`. -/
def readLogRecord (file : List Nat) (offset : Nat) : Res (LogRecord × Nat) :=
  match readBytes file offset maxLogRecordHeaderSize with
  | [] => .panic
  | recTypeByte :: headerRest =>
    match decodeVarint 10 headerRest with
    | none => .panic
    | some (keySize, headerRest₂) =>
      match decodeVarint 10 headerRest₂ with
      | none => .panic
      | some (valueSize, _) =>
        if keySize = 0 ∧ valueSize = 0 then .err .ReadDataFileEOF
        else
          let actualHeaderSize := lengthDelimiterLen keySize + lengthDelimiterLen valueSize + 1
          let kvBuf := readBytes file (offset + actualHeaderSize) (keySize + valueSize + 4)
          match LogRecordType.fromU8 recTypeByte with
          | none => .panic
          | some t =>
            let lr : LogRecord :=
              ⟨kvBuf.take keySize, (kvBuf.take (kvBuf.length - 4)).drop keySize, t⟩
            if getU32be (kvBuf.drop (keySize + valueSize)) ≠ lr.getCrc then
              .err .InvalidLogRecordCrc
            else
              .ok (lr, actualHeaderSize + keySize + valueSize + 4)

/-! ## Engine state (`src/db.rs`) -/

abbrev FS := List (Nat × List Nat)

abbrev Index := List (List Nat × LogRecordPos)

structure Options where
  dataFileSize : Nat
  syncWrite : Bool
deriving DecidableEq, Repr

structure Engine where
  dataFileSize : Nat
  syncWrite : Bool
  activeId : Nat
  /-- The write offset of the active `DataFile` handle (not necessarily the
  on-disk length: appends go to the end of the file regardless). -/
  activeOff : Nat
  /-- On-disk contents of every segment, keyed by segment id. -/
  files : FS
  /-- Key set of the `older_files` map. -/
  olderIds : List Nat
  index : Index
  seqNo : Nat
deriving DecidableEq, Repr

def fileContents (s : Engine) (fid : Nat) : List Nat := (alLookup s.files fid).getD []

/-- `BTree::put` (always succeeds). -/
def indexPut (idx : Index) (k : List Nat) (pos : LogRecordPos) : Bool × Index :=
  (true, alInsert idx k pos)

/-- `BTree::delete` (reports whether the key was present). -/
def indexDelete (idx : Index) (k : List Nat) : Bool × Index :=
  ((alLookup idx k).isSome, alErase idx k)

/-- `BTree::get`. -/
def indexGet (idx : Index) (k : List Nat) : Option LogRecordPos := alLookup idx k

/-! ## Sequenced keys (`src/batch.rs`) -/

def NON_TRANSACTION_SEQ_NO : Nat := 0

/-- `log_record_key_with_seq`. -/
def logRecordKeyWithSeq (key : List Nat) (seqNo : Nat) : List Nat :=
  encodeVarint seqNo ++ key

/-- `parse_log_record_key` (the source `unwrap`s the varint decode). -/
def parseLogRecordKey (key : List Nat) : Res (List Nat × Nat) :=
  match decodeVarint 10 key with
  | none => .panic
  | some (seqNo, rest) => .ok (rest, seqNo)

/-- The sentinel user key `txn-fin`. -/
def TXN_FINISH_KEY : List Nat := [116, 120, 110, 45, 102, 105, 110]

/-! ## Engine operations (`src/db.rs`) -/

/-- `Engine::append_log_record`: rotate if the record would push the active
segment past the size threshold, then append at the end of the active file. -/
def Engine.appendLogRecord (s : Engine) (record : LogRecord) : LogRecordPos × Engine :=
  let encRecord := record.encode
  let s₁ :=
    if s.activeOff + encRecord.length > s.dataFileSize then
      { s with
        olderIds := s.activeId :: s.olderIds
        activeId := s.activeId + 1
        activeOff := 0
        files :=
          match alLookup s.files (s.activeId + 1) with
          | some _ => s.files
          | none => alInsert s.files (s.activeId + 1) [] }
    else s
  let writeOff := s₁.activeOff
  let s₂ :=
    { s₁ with
      files := alInsert s₁.files s₁.activeId (fileContents s₁ s₁.activeId ++ encRecord)
      activeOff := s₁.activeOff + encRecord.length }
  (⟨s₂.activeId, writeOff⟩, s₂)

/-- `Engine::put`. -/
def Engine.put (s : Engine) (key value : List Nat) : Res Unit × Engine :=
  if key = [] then (.err .KeyIsEmpty, s)
  else
    let record : LogRecord := ⟨logRecordKeyWithSeq key NON_TRANSACTION_SEQ_NO, value, .NORMAL⟩
    let (pos, s₁) := s.appendLogRecord record
    let (ok, idx) := indexPut s₁.index key pos
    if ok then (.ok (), { s₁ with index := idx })
    else (.err .IndexUpdateFailed, { s₁ with index := idx })

/-- `Engine::get_value_by_position`. -/
def Engine.getValueByPosition (s : Engine) (pos : LogRecordPos) : Res (List Nat) :=
  let readResult :=
    if s.activeId = pos.file_id then readLogRecord (fileContents s s.activeId) pos.offset
    else if pos.file_id ∈ s.olderIds then readLogRecord (fileContents s pos.file_id) pos.offset
    else .err .FailedToOpenDataFile
  match readResult with
  | .panic => .panic
  | .err e => .err e
  | .ok (lr, _) =>
    if lr.rec_type = .DELETED then .err .KeyNotFound
    else .ok lr.value

/-- `Engine::get`. -/
def Engine.get (s : Engine) (key : List Nat) : Res (List Nat) :=
  if key = [] then .err .KeyIsEmpty
  else
    match indexGet s.index key with
    | none => .err .KeyNotFound
    | some pos => s.getValueByPosition pos

/-- `Engine::delete`. -/
def Engine.delete (s : Engine) (key : List Nat) : Res Unit × Engine :=
  if key = [] then (.err .KeyIsEmpty, s)
  else
    match indexGet s.index key with
    | none => (.ok (), s)
    | some _ =>
      let record : LogRecord := ⟨logRecordKeyWithSeq key NON_TRANSACTION_SEQ_NO, [], .DELETED⟩
      let (_, s₁) := s.appendLogRecord record
      let (ok, idx) := indexDelete s₁.index key
      if ok then (.ok (), { s₁ with index := idx })
      else (.err .IndexUpdateFailed, { s₁ with index := idx })

/-- `Engine::close` (syncs the active file; no state change in the model). -/
def Engine.close (_ : Engine) : Res Unit := .ok ()

/-! ## Recovery / replay (`Engine::load_index_from_data_file`) -/

structure TransactionRecord where
  record : LogRecord
  pos : LogRecordPos
deriving DecidableEq, Repr

structure ReplayState where
  index : Index
  transactionRecords : List (Nat × List TransactionRecord)
  currentSeqNo : Nat
  /-- Write offset of the active `DataFile` handle (0 from `DataFile::new`
  unless `set_write_off` runs). -/
  activeWriteOff : Nat
deriving DecidableEq, Repr

/-- `Engine::update_index`: only NORMAL and DELETED records touch the index. -/
def Engine.updateIndex (idx : Index) (key : List Nat) (recType : LogRecordType)
    (pos : LogRecordPos) : Index :=
  match recType with
  | .NORMAL => (indexPut idx key pos).2
  | .DELETED => (indexDelete idx key).2
  | _ => idx

def applyTxnRecords (idx : Index) (records : List TransactionRecord) : Index :=
  records.foldl (fun i tr => Engine.updateIndex i tr.record.key tr.record.rec_type tr.pos) idx

/-- The per-segment replay loop of `load_index_from_data_file`, returning the
final state and the offset at which replay stopped.  The branch structure
(including the unreachable second `TXNFINISH` test) mirrors the source. -/
def replayFile (fid : Nat) (file : List Nat) : Nat → Nat → ReplayState → Res (ReplayState × Nat)
  | 0, _, _ => .panic
  | fuel + 1, offset, st =>
    match readLogRecord file offset with
    | .panic => .panic
    | .err e => if e = .ReadDataFileEOF then .ok (st, offset) else .err e
    | .ok (logRecord, size) =>
      let pos : LogRecordPos := ⟨fid, offset⟩
      match parseLogRecordKey logRecord.key with
      | .panic => .panic
      | .err e => .err e
      | .ok (realKey, seqNo) =>
        let stepped : Res ReplayState :=
          if seqNo = NON_TRANSACTION_SEQ_NO then
            .ok { st with index := Engine.updateIndex st.index realKey logRecord.rec_type pos }
          else if logRecord.rec_type = .TXNFINISH then
            .ok { st with index := Engine.updateIndex st.index realKey logRecord.rec_type pos }
          else if logRecord.rec_type = .TXNFINISH then
            match alLookup st.transactionRecords seqNo with
            | none => .panic
            | some records =>
              .ok { st with
                index := applyTxnRecords st.index records
                transactionRecords := alErase st.transactionRecords seqNo }
          else
            .ok { st with
              transactionRecords :=
                alInsert st.transactionRecords seqNo
                  ((alLookup st.transactionRecords seqNo).getD [] ++
                    [⟨{ logRecord with key := realKey }, pos⟩]) }
        match stepped with
        | .panic => .panic
        | .err e => .err e
        | .ok st₁ =>
          replayFile fid file fuel (offset + size)
            { st₁ with currentSeqNo := max seqNo st₁.currentSeqNo }

/-- The enumerated loop over all data files; `i` is the enumeration index and
`total` the length of `file_ids`.  After each file the source sets the active
write offset only when `i == total`, which never holds. -/
def loadIndexFiles (files : FS) (total : Nat) : List Nat → Nat → ReplayState → Res ReplayState
  | [], _, st => .ok st
  | fid :: rest, i, st =>
    let content := (alLookup files fid).getD []
    match replayFile fid content (content.length + 1) 0 st with
    | .panic => .panic
    | .err e => .err e
    | .ok (st₁, stopOffset) =>
      let st₂ := if i = total then { st₁ with activeWriteOff := stopOffset } else st₁
      loadIndexFiles files total rest (i + 1) st₂

/-- `Engine::load_index_from_data_file`, starting from an empty index. -/
def loadIndexFromDataFile (files : FS) (fileIds : List Nat) : Res ReplayState :=
  let st₀ : ReplayState := ⟨[], [], NON_TRANSACTION_SEQ_NO, 0⟩
  if fileIds = [] then .ok st₀
  else loadIndexFiles files fileIds.length fileIds 0 st₀

def insertSorted (n : Nat) : List Nat → List Nat
  | [] => [n]
  | m :: rest => if n ≤ m then n :: m :: rest else m :: insertSorted n rest

def sortIds : List Nat → List Nat
  | [] => []
  | n :: rest => insertSorted n (sortIds rest)

/-- `Engine::open`, over a directory modelled as its segment files. -/
def Engine.openFS (dir : FS) (opts : Options) : Res Engine :=
  if opts.dataFileSize < 100 then .err .DataFileSizeTooSmall
  else
    let fileIds := sortIds (dir.map Prod.fst)
    let activeId := fileIds.getLastD 0
    let olderIds := fileIds.dropLast
    let files := if fileIds = [] then alInsert dir 0 [] else dir
    let engine : Engine :=
      { dataFileSize := opts.dataFileSize, syncWrite := opts.syncWrite,
        activeId := activeId, activeOff := 0, files := files, olderIds := olderIds,
        index := [], seqNo := 1 }
    match loadIndexFromDataFile engine.files fileIds with
    | .panic => .panic
    | .err e => .err e
    | .ok st =>
      .ok { engine with
        index := st.index
        activeOff := st.activeWriteOff
        seqNo := st.currentSeqNo + 1 }

/-! ## Write batches (`src/batch.rs`) -/

abbrev Pending := List (List Nat × LogRecord)

structure WriteBatchOptions where
  maxBatchNum : Nat
  syncWrites : Bool
deriving DecidableEq, Repr

/-- `WriteBatch::put`: stage a NORMAL record. -/
def WriteBatch.put (p : Pending) (key value : List Nat) : Res Pending :=
  if key = [] then .err .KeyIsEmpty
  else .ok (alInsert p key ⟨key, value, .NORMAL⟩)

/-- `WriteBatch::delete`: if the key is absent from the engine index, drop any
staged entry first; then stage a DELETED record. -/
def WriteBatch.delete (s : Engine) (p : Pending) (key : List Nat) : Res Pending :=
  if key = [] then .err .KeyIsEmpty
  else
    let p₁ :=
      if (indexGet s.index key).isNone then
        if (alLookup p key).isSome then alErase p key else p
      else p
    .ok (alInsert p₁ key ⟨key, [], .DELETED⟩)

/-- The index-update loop at the end of `WriteBatch::commit` (looks every
staged key up in the recorded positions, `unwrap`ping the result). -/
def commitIndexUpdates (positions : List (List Nat × LogRecordPos)) :
    Engine → Pending → Res Engine
  | e, [] => .ok e
  | e, item :: rest =>
    match alLookup positions item.2.key with
    | none => .panic
    | some pos =>
      let e₁ :=
        if item.2.rec_type = .NORMAL then { e with index := (indexPut e.index item.2.key pos).2 }
        else e
      let e₂ :=
        if item.2.rec_type = .DELETED then { e₁ with index := (indexDelete e₁.index item.2.key).2 }
        else e₁
      commitIndexUpdates positions e₂ rest

/-- `WriteBatch::commit`. -/
def WriteBatch.commit (s : Engine) (p : Pending) (o : WriteBatchOptions) :
    Res (Engine × Pending) :=
  if p.length = 0 then .ok (s, p)
  else if p.length > o.maxBatchNum then .err .ExceddMaxBatchNum
  else
    let seqNo := s.seqNo
    let s₀ := { s with seqNo := s.seqNo + 1 }
    let s₁p := p.foldl
      (fun acc item =>
        let record : LogRecord :=
          ⟨logRecordKeyWithSeq item.2.key seqNo, item.2.value, item.2.rec_type⟩
        let (pos, e₁) := acc.1.appendLogRecord record
        (e₁, alInsert acc.2 item.2.key pos))
      ((s₀, []) : Engine × List (List Nat × LogRecordPos))
    let finishRecord : LogRecord := ⟨logRecordKeyWithSeq TXN_FINISH_KEY seqNo, [], .TXNFINISH⟩
    let s₂ := (s₁p.1.appendLogRecord finishRecord).2
    match commitIndexUpdates s₁p.2 s₂ p with
    | .panic => .panic
    | .err e => .err e
    | .ok s₃ => .ok (s₃, [])

/-! ## Operation sequences and invariants used by the read-your-writes claim -/

inductive Op where
  | putOp (key value : List Nat)
  | delOp (key : List Nat)
deriving DecidableEq, Repr

def Op.key : Op → List Nat
  | .putOp k _ => k
  | .delOp k => k

def applyOp (s : Engine) : Op → Engine
  | .putOp k v => (s.put k v).2
  | .delOp k => (s.delete k).2

def runOps (s : Engine) (ops : List Op) : Engine := ops.foldl applyOp s

/-- Structural invariant: the active handle write offset equals the active
file length, and every known segment id is at most the active id. -/
abbrev SInv (s : Engine) : Prop :=
  s.activeOff = (fileContents s s.activeId).length ∧ ∀ p ∈ s.files, p.1 ≤ s.activeId

/-- The record `Engine::put` appends for a key/value pair. -/
def putRecord (key value : List Nat) : LogRecord :=
  ⟨logRecordKeyWithSeq key NON_TRANSACTION_SEQ_NO, value, .NORMAL⟩

/-- The index holds a locator for `key` pointing at an intact encoded
`putRecord key value` inside a reachable segment. -/
def goodEntry (s : Engine) (key value : List Nat) : Prop :=
  ∃ pos preBytes postBytes,
    indexGet s.index key = some pos ∧
    (pos.file_id = s.activeId ∨ pos.file_id ∈ s.olderIds) ∧
    fileContents s pos.file_id = preBytes ++ (putRecord key value).encode ++ postBytes ∧
    pos.offset = preBytes.length

/-- A freshly opened engine over an empty directory, with a 100-byte segment
threshold (the smallest the options validation allows). -/
def freshEngine : Engine :=
  { dataFileSize := 100, syncWrite := false, activeId := 0, activeOff := 0,
    files := [(0, [])], olderIds := [], index := [], seqNo := 1 }

/-! ## Concrete reopen scenarios used by the recovery claims -/

def demoOptions : Options := ⟨1024, false⟩

def demoWBOptions : WriteBatchOptions := ⟨10000, true⟩

def resOfPut (r : Res Unit × Engine) : Res Engine :=
  match r.1 with
  | .ok _ => .ok r.2
  | .err e => .err e
  | .panic => .panic

/-- Fresh engine after one committed write batch `{[10] ↦ [20]}` (no reopen). -/
def engineAfterOneCommit : Res Engine :=
  (Engine.openFS [] demoOptions).bind fun e₀ =>
  (WriteBatch.put [] [10] [20]).bind fun p₁ =>
  (WriteBatch.commit e₀ p₁ demoWBOptions).bind fun ep₁ =>
  .ok ep₁.1

/-- Fresh engine, one committed write batch `{[10] ↦ [20]}`, clean close, reopen. -/
def reopenAfterOneCommit : Res Engine :=
  (Engine.openFS [] demoOptions).bind fun e₀ =>
  (WriteBatch.put [] [10] [20]).bind fun p₁ =>
  (WriteBatch.commit e₀ p₁ demoWBOptions).bind fun ep₁ =>
  (ep₁.1.close).bind fun _ =>
  Engine.openFS ep₁.1.files demoOptions

/-- Fresh engine, one non-batched `put [1] [2]`, clean close, reopen. -/
def reopenAfterOnePut : Res Engine :=
  (Engine.openFS [] demoOptions).bind fun e₀ =>
  (resOfPut (e₀.put [1] [2])).bind fun e₁ =>
  (e₁.close).bind fun _ =>
  Engine.openFS e₁.files demoOptions

/-- Fresh engine, two committed single-key write batches, clean close, reopen. -/
def reopenAfterTwoCommits : Res Engine :=
  (Engine.openFS [] demoOptions).bind fun e₀ =>
  (WriteBatch.put [] [10] [20]).bind fun p₁ =>
  (WriteBatch.commit e₀ p₁ demoWBOptions).bind fun ep₁ =>
  (WriteBatch.put [] [11] [21]).bind fun p₂ =>
  (WriteBatch.commit ep₁.1 p₂ demoWBOptions).bind fun ep₂ =>
  (ep₂.1.close).bind fun _ =>
  Engine.openFS ep₂.1.files demoOptions

def resSeqNo : Res Engine → Option Nat
  | .ok e => some e.seqNo
  | _ => none

def resActiveOff : Res Engine → Option Nat
  | .ok e => some e.activeOff
  | _ => none

def resActiveLen : Res Engine → Option Nat
  | .ok e => some (fileContents e e.activeId).length
  | _ => none

def resGet (r : Res Engine) (k : List Nat) : Option (Res (List Nat)) :=
  match r with
  | .ok e => some (e.get k)
  | _ => none

/-! # Theorems -/

/-! ## Association-list lemmas -/

@[simp] theorem alLookup_nil {α β : Type} [DecidableEq α] (k : α) :
    alLookup ([] : List (α × β)) k = none := rfl

@[simp] theorem alLookup_cons {α β : Type} [DecidableEq α] (a : α) (b : β) (l : List (α × β))
    (k : α) : alLookup ((a, b) :: l) k = if a = k then some b else alLookup l k := rfl

theorem alLookup_erase_ne {α β : Type} [DecidableEq α] (l : List (α × β)) (k x : α)
    (h : x ≠ k) : alLookup (alErase l k) x = alLookup l x := by
  induction l with
  | nil => rfl
  | cons p rest ih =>
    obtain ⟨a, b⟩ := p
    simp only [alErase]
    by_cases hak : a = k
    · rw [if_pos hak, ih]
      have hax : ¬ a = x := fun hax => h (by rw [← hax]; exact hak)
      simp [hax]
    · rw [if_neg hak]
      simp only [alLookup_cons, ih]

@[simp] theorem alLookup_insert_self {α β : Type} [DecidableEq α] (l : List (α × β)) (k : α)
    (v : β) : alLookup (alInsert l k v) k = some v := by
  simp [alInsert]

theorem alLookup_insert_ne {α β : Type} [DecidableEq α] (l : List (α × β)) (k x : α) (v : β)
    (h : x ≠ k) : alLookup (alInsert l k v) x = alLookup l x := by
  simp only [alInsert, alLookup_cons, if_neg (fun hkx : k = x => h hkx.symm)]
  exact alLookup_erase_ne l k x h

theorem mem_alErase {α β : Type} [DecidableEq α] {l : List (α × β)} {k : α} {p : α × β}
    (h : p ∈ alErase l k) : p ∈ l := by
  induction l with
  | nil => simpa [alErase] using h
  | cons q rest ih =>
    obtain ⟨a, b⟩ := q
    by_cases hak : a = k
    · simp only [alErase, if_pos hak] at h
      exact List.mem_cons_of_mem _ (ih h)
    · simp only [alErase, if_neg hak, List.mem_cons] at h
      rcases h with h | h
      · exact h ▸ List.mem_cons_self _ _
      · exact List.mem_cons_of_mem _ (ih h)

theorem mem_alInsert {α β : Type} [DecidableEq α] {l : List (α × β)} {k : α} {v : β}
    {p : α × β} (h : p ∈ alInsert l k v) : p = (k, v) ∨ p ∈ l := by
  rcases List.mem_cons.mp h with h | h
  · exact Or.inl h
  · exact Or.inr (mem_alErase h)

/-! ## Varint lemmas -/

theorem encodeVarintFuel_irrel : ∀ (f₁ f₂ n : Nat), n ≤ f₁ → n ≤ f₂ →
    encodeVarintFuel f₁ n = encodeVarintFuel f₂ n := by
  intro f₁
  induction f₁ with
  | zero =>
    intro f₂ n h₁ _
    have hn : n = 0 := by omega
    subst hn
    cases f₂ with
    | zero => rfl
    | succ f₂ => simp [encodeVarintFuel]
  | succ f₁ ih =>
    intro f₂ n h₁ h₂
    by_cases hn : n < 128
    · cases f₂ with
      | zero =>
        have : n = 0 := by omega
        subst this
        simp [encodeVarintFuel]
      | succ f₂ => simp [encodeVarintFuel, hn]
    · have hge : 128 ≤ n := by omega
      cases f₂ with
      | zero => omega
      | succ f₂ =>
        simp only [encodeVarintFuel, if_neg hn]
        have hd : n / 128 ≤ f₁ := by
          have := Nat.div_le_self n 128
          have h2 : n / 128 < n := Nat.div_lt_self (by omega) (by omega)
          omega
        have hd₂ : n / 128 ≤ f₂ := by
          have h2 : n / 128 < n := Nat.div_lt_self (by omega) (by omega)
          omega
        rw [ih f₂ (n / 128) hd hd₂]

theorem encodeVarint_unfold (n : Nat) :
    encodeVarint n = if n < 128 then [n] else (n % 128 + 128) :: encodeVarint (n / 128) := by
  by_cases hn : n < 128
  · rw [if_pos hn]
    unfold encodeVarint
    cases n with
    | zero => rfl
    | succ m => simp [encodeVarintFuel, hn]
  · rw [if_neg hn]
    unfold encodeVarint
    have hge : 128 ≤ n := by omega
    obtain ⟨m, hm⟩ : ∃ m, n = m + 1 := ⟨n - 1, by omega⟩
    subst hm
    simp only [encodeVarintFuel, if_neg hn]
    have hd₁ : (m + 1) / 128 ≤ m := by
      have := Nat.div_lt_self (show 0 < m + 1 by omega) (show 1 < 128 by omega)
      omega
    rw [encodeVarintFuel_irrel m ((m + 1) / 128) ((m + 1) / 128) hd₁ (le_refl _)]

theorem encodeVarint_ne_nil (n : Nat) : encodeVarint n ≠ [] := by
  rw [encodeVarint_unfold]
  split <;> simp

theorem encodeVarint_length_le (k : Nat) : ∀ n : Nat, n < 128 ^ k → 0 < k →
    (encodeVarint n).length ≤ k := by
  induction k with
  | zero => intro n _ hk; omega
  | succ k ih =>
    intro n hn _
    rw [encodeVarint_unfold]
    split
    · simp
    · rename_i hge
      have hk0 : 0 < k := by
        by_contra hk
        have : k = 0 := by omega
        subst this
        simp [pow_succ] at hn
        omega
      have hdiv : n / 128 < 128 ^ k := by
        have : n < 128 * 128 ^ k := by
          calc n < 128 ^ (k + 1) := hn
          _ = 128 * 128 ^ k := by ring
        exact Nat.div_lt_of_lt_mul this
      simpa [List.length_cons] using Nat.succ_le_succ (ih (n / 128) hdiv hk0)

theorem encodeVarint_bytes (n : Nat) : ∀ b ∈ encodeVarint n, b < 256 := by
  induction n using Nat.strong_induction_on with
  | _ n ih =>
    intro b hb
    rw [encodeVarint_unfold] at hb
    split at hb
    · rename_i h
      simp at hb
      omega
    · rename_i h
      rcases List.mem_cons.mp hb with h1 | h1
      · have := Nat.mod_lt n (show 0 < 128 by omega)
        omega
      · exact ih (n / 128) (Nat.div_lt_self (by omega) (by omega)) b h1

theorem decodeVarint_encode (fuel : Nat) : ∀ (n : Nat) (rest : List Nat),
    (encodeVarint n).length ≤ fuel →
    decodeVarint fuel (encodeVarint n ++ rest) = some (n, rest) := by
  induction fuel with
  | zero =>
    intro n rest h
    have hne := encodeVarint_ne_nil n
    have : 0 < (encodeVarint n).length := List.length_pos.mpr hne
    omega
  | succ fuel ih =>
    intro n rest h
    by_cases hlt : n < 128
    · rw [encodeVarint_unfold]
      simp [decodeVarint, hlt]
    · have henc : encodeVarint n = (n % 128 + 128) :: encodeVarint (n / 128) := by
        conv_lhs => rw [encodeVarint_unfold]
        simp [hlt]
      have hlen : (encodeVarint (n / 128)).length ≤ fuel := by
        rw [henc] at h
        simpa using h
      have hhead : ¬ (n % 128 + 128 < 128) := by omega
      rw [henc, List.cons_append]
      show decodeVarint (fuel + 1) _ = _
      unfold decodeVarint
      rw [if_neg hhead, ih (n / 128) rest hlen]
      have hmod : (n % 128 + 128) % 128 = n % 128 := by omega
      simp [hmod, Nat.mod_add_div]

theorem encodeVarint_length_le_five (n : Nat) (h : n < 2 ^ 32) :
    (encodeVarint n).length ≤ 5 := by
  apply encodeVarint_length_le 5 n _ (by omega)
  calc n < 2 ^ 32 := h
  _ ≤ 128 ^ 5 := by norm_num

/-! ## XOR algebra -/

theorem xor_right_comm (x y z : Nat) : (x ^^^ y) ^^^ z = (x ^^^ z) ^^^ y := by
  rw [Nat.xor_assoc, Nat.xor_comm y z, ← Nat.xor_assoc]

theorem xor_xor_cancel (x y p : Nat) : (x ^^^ p) ^^^ (y ^^^ p) = x ^^^ y := by
  rw [Nat.xor_comm y p, ← Nat.xor_assoc, Nat.xor_assoc x p p, Nat.xor_self, Nat.xor_zero]

theorem xor_cancel_left (c e : Nat) : (c ^^^ e) ^^^ c = e := by
  rw [xor_right_comm, Nat.xor_self, Nat.zero_xor]

theorem xor_mod_two (a b : Nat) : (a ^^^ b) % 2 = (a % 2) ^^^ (b % 2) := by
  have h := Nat.testBit_xor a b 0
  simp only [Nat.testBit_zero] at h
  rcases Nat.mod_two_eq_zero_or_one a with ha | ha <;>
    rcases Nat.mod_two_eq_zero_or_one b with hb | hb <;>
      rcases Nat.mod_two_eq_zero_or_one (a ^^^ b) with hx | hx <;>
        simp_all

theorem xor_div_two (a b : Nat) : (a ^^^ b) / 2 = a / 2 ^^^ b / 2 := by
  apply Nat.eq_of_testBit_eq
  intro i
  simp [Nat.testBit_div_two, Nat.testBit_xor]

theorem xor_two_pow_ne (x j : Nat) : x ^^^ 2 ^ j ≠ x := by
  intro h
  have := congrArg (Nat.testBit · j) h
  simp [Nat.testBit_xor] at this

theorem xor_four_comm (a b x y : Nat) : (a ^^^ b) ^^^ (x ^^^ y) = (a ^^^ x) ^^^ (b ^^^ y) := by
  apply Nat.eq_of_testBit_eq
  intro i
  simp only [Nat.testBit_xor]
  cases a.testBit i <;> cases b.testBit i <;> cases x.testBit i <;> cases y.testBit i <;> rfl

theorem eq_of_xor_eq_zero {a b : Nat} (h : a ^^^ b = 0) : a = b := by
  have := congrArg (· ^^^ b) h
  simpa [Nat.xor_assoc] using this

/-! ## CRC-32: the state machine is xor-linear, bounded, and zero-free -/

theorem crcRound_linear (a b : Nat) : crcRound (a ^^^ b) = crcRound a ^^^ crcRound b := by
  unfold crcRound
  have hx := xor_mod_two a b
  rcases Nat.mod_two_eq_zero_or_one a with ha | ha <;>
    rcases Nat.mod_two_eq_zero_or_one b with hb | hb <;>
      rw [ha, hb] at hx
  · simp only [ha, hb, hx]
    norm_num [xor_div_two]
  · simp only [ha, hb, hx]
    norm_num [xor_div_two, Nat.xor_assoc]
  · simp only [ha, hb, hx]
    norm_num [xor_div_two, xor_right_comm]
  · simp only [ha, hb, hx]
    norm_num [xor_div_two, xor_xor_cancel]

theorem crcRounds_linear (k : Nat) : ∀ a b : Nat,
    crcRounds k (a ^^^ b) = crcRounds k a ^^^ crcRounds k b := by
  induction k with
  | zero => intro a b; rfl
  | succ k ih =>
    intro a b
    simp only [crcRounds, crcRound_linear, ih]

theorem crcStep_linear (a b x y : Nat) :
    crcStep (a ^^^ b) (x ^^^ y) = crcStep a x ^^^ crcStep b y := by
  unfold crcStep
  rw [xor_four_comm, crcRounds_linear]

theorem crcFold_linear : ∀ (l m : List Nat) (s t : Nat), l.length = m.length →
    (List.zipWith (· ^^^ ·) l m).foldl crcStep (s ^^^ t) =
      (l.foldl crcStep s) ^^^ (m.foldl crcStep t) := by
  intro l
  induction l with
  | nil =>
    intro m s t h
    cases m with
    | nil => rfl
    | cons _ _ => simp at h
  | cons a l ih =>
    intro m s t h
    cases m with
    | nil => simp at h
    | cons b m =>
      simp only [List.zipWith_cons_cons, List.foldl_cons]
      rw [crcStep_linear s t a b, ih m (crcStep s a) (crcStep t b) (by simpa using h)]

theorem crcRound_lt (c : Nat) (h : c < 2 ^ 32) : crcRound c < 2 ^ 32 := by
  unfold crcRound
  split
  · have h1 : c / 2 < 2 ^ 32 := by omega
    have h2 : crcPoly < 2 ^ 32 := by norm_num [crcPoly]
    exact Nat.xor_lt_two_pow h1 h2
  · omega

theorem crcRounds_lt (k : Nat) : ∀ c : Nat, c < 2 ^ 32 → crcRounds k c < 2 ^ 32 := by
  induction k with
  | zero => intro c hc; exact hc
  | succ k ih => intro c hc; exact ih _ (crcRound_lt c hc)

theorem crcStep_lt (c b : Nat) (hc : c < 2 ^ 32) (hb : b < 2 ^ 32) : crcStep c b < 2 ^ 32 :=
  crcRounds_lt 8 _ (Nat.xor_lt_two_pow hc hb)

theorem crcFold_lt : ∀ (l : List Nat) (s : Nat), Bytes l → s < 2 ^ 32 →
    l.foldl crcStep s < 2 ^ 32 := by
  intro l
  induction l with
  | nil => intro s _ hs; exact hs
  | cons b l ih =>
    intro s hB hs
    have hb : b < 2 ^ 32 := by
      have := hB b (List.mem_cons_self _ _)
      omega
    exact ih _ (fun x hx => hB x (List.mem_cons_of_mem _ hx)) (crcStep_lt s b hs hb)

theorem crc32_lt (l : List Nat) (h : Bytes l) : crc32 l < 2 ^ 32 := by
  unfold crc32
  exact Nat.xor_lt_two_pow (crcFold_lt l _ h (by norm_num)) (by norm_num)

theorem crcRound_pres (c : Nat) (hc : c < 2 ^ 32) (h : c ≠ 0) :
    crcRound c < 2 ^ 32 ∧ crcRound c ≠ 0 := by
  refine ⟨crcRound_lt c hc, ?_⟩
  unfold crcRound
  split
  · rename_i hodd
    intro hzero
    have hbit : (c / 2 ^^^ crcPoly).testBit 31 = true := by
      have h1 : (c / 2).testBit 31 = false := by
        apply Nat.testBit_eq_false_of_lt
        omega
      have h2 : crcPoly.testBit 31 = true := by decide
      simp [Nat.testBit_xor, h1, h2]
    rw [hzero] at hbit
    simp [Nat.zero_testBit] at hbit
  · rename_i heven
    omega

theorem crcRounds_pres (k : Nat) : ∀ c : Nat, c < 2 ^ 32 → c ≠ 0 →
    crcRounds k c < 2 ^ 32 ∧ crcRounds k c ≠ 0 := by
  induction k with
  | zero => intro c hc h; exact ⟨hc, h⟩
  | succ k ih =>
    intro c hc h
    obtain ⟨h1, h2⟩ := crcRound_pres c hc h
    exact ih _ h1 h2

theorem crcStep_zero_byte (s : Nat) : crcStep s 0 = crcRounds 8 s := by
  simp [crcStep]

theorem crcFold_zeros_of_ne (m : Nat) : ∀ s : Nat, s < 2 ^ 32 → s ≠ 0 →
    (List.replicate m 0).foldl crcStep s < 2 ^ 32 ∧
      (List.replicate m 0).foldl crcStep s ≠ 0 := by
  induction m with
  | zero => intro s hs h; exact ⟨hs, h⟩
  | succ m ih =>
    intro s hs h
    rw [List.replicate_succ, List.foldl_cons, crcStep_zero_byte]
    obtain ⟨h1, h2⟩ := crcRounds_pres 8 s hs h
    exact ih _ h1 h2

theorem crcFold_zeros_zero (m : Nat) : (List.replicate m 0).foldl crcStep 0 = 0 := by
  induction m with
  | zero => rfl
  | succ m ih =>
    rw [List.replicate_succ, List.foldl_cons]
    have : crcStep 0 0 = 0 := by decide
    rw [this, ih]

theorem zipWith_xor_self (l : List Nat) :
    List.zipWith (· ^^^ ·) l l = List.replicate l.length 0 := by
  induction l with
  | nil => rfl
  | cons a l ih => simp [ih, List.replicate_succ]

/-- CRC-32 detects every single-bit difference. -/
theorem crc32_flip_ne (u w : List Nat) (c j : Nat) (hj : j < 8) :
    crc32 (u ++ (c ^^^ 2 ^ j) :: w) ≠ crc32 (u ++ c :: w) := by
  intro heq
  have hlen : (u ++ (c ^^^ 2 ^ j) :: w).length = (u ++ c :: w).length := by simp
  have hzip : List.zipWith (· ^^^ ·) (u ++ (c ^^^ 2 ^ j) :: w) (u ++ c :: w) =
      List.replicate u.length 0 ++ 2 ^ j :: List.replicate w.length 0 := by
    rw [List.zipWith_append _ _ _ _ _ rfl, zipWith_xor_self]
    simp [zipWith_xor_self, xor_cancel_left]
  have hfold := crcFold_linear (u ++ (c ^^^ 2 ^ j) :: w) (u ++ c :: w)
    0xFFFFFFFF 0xFFFFFFFF hlen
  rw [Nat.xor_self, hzip] at hfold
  have hdiff : (List.replicate u.length 0 ++ 2 ^ j :: List.replicate w.length 0).foldl
      crcStep 0 ≠ 0 := by
    rw [List.foldl_append, crcFold_zeros_zero, List.foldl_cons]
    have hstep : crcStep 0 (2 ^ j) = crcRounds 8 (2 ^ j) := by
      simp [crcStep]
    rw [hstep]
    have hlt : 2 ^ j < 2 ^ 32 := by
      calc 2 ^ j < 2 ^ 8 := Nat.pow_lt_pow_right (by omega) hj
      _ < 2 ^ 32 := by norm_num
    have hne : 2 ^ j ≠ 0 := Nat.pos_iff_ne_zero.mp (Nat.pos_pow_of_pos j (by omega))
    obtain ⟨h1, h2⟩ := crcRounds_pres 8 _ hlt hne
    exact (crcFold_zeros_of_ne w.length _ h1 h2).2
  apply hdiff
  rw [hfold]
  have hcrc := congrArg (· ^^^ (0xFFFFFFFF : Nat)) heq
  simp only [crc32] at heq
  have : (u ++ (c ^^^ 2 ^ j) :: w).foldl crcStep 0xFFFFFFFF =
      (u ++ c :: w).foldl crcStep 0xFFFFFFFF := by
    have h1 := congrArg (· ^^^ (0xFFFFFFFF : Nat)) heq
    simpa [crc32, Nat.xor_assoc] using h1
  rw [this, Nat.xor_self]

/-! ## Byte-order and record-shape lemmas -/

theorem u32be_length (n : Nat) : (u32be n).length = 4 := rfl

theorem u32be_bytes (n : Nat) : Bytes (u32be n) := by
  intro b hb
  simp only [u32be, List.mem_cons, List.not_mem_nil, or_false] at hb
  rcases hb with h | h | h | h <;> subst h <;>
    first
      | exact Nat.mod_lt _ (by omega)

theorem getU32be_u32be (n : Nat) (h : n < 2 ^ 32) : getU32be (u32be n) = n := by
  show n / 2 ^ 24 % 256 * 2 ^ 24 + n / 2 ^ 16 % 256 * 2 ^ 16 + n / 2 ^ 8 % 256 * 2 ^ 8 +
    n % 256 = n
  omega

theorem toU8_lt (t : LogRecordType) : t.toU8 < 256 := by
  cases t <;> simp [LogRecordType.toU8]

theorem fromU8_toU8 (t : LogRecordType) : LogRecordType.fromU8 t.toU8 = some t := by
  cases t <;> rfl

theorem encodeBody_bytes (r : LogRecord) (hk : Bytes r.key) (hv : Bytes r.value) :
    Bytes r.encodeBody := by
  intro b hb
  simp only [LogRecord.encodeBody, List.mem_cons, List.mem_append] at hb
  rcases hb with h | ⟨⟨h | h⟩ | h⟩ | h
  · exact h ▸ toU8_lt r.rec_type
  · exact encodeVarint_bytes _ b h
  · exact encodeVarint_bytes _ b h
  · exact hk b h
  · exact hv b h

theorem getCrc_lt (r : LogRecord) (hk : Bytes r.key) (hv : Bytes r.value) :
    r.getCrc < 2 ^ 32 :=
  crc32_lt _ (encodeBody_bytes r hk hv)

theorem encode_length (r : LogRecord) :
    r.encode.length = lengthDelimiterLen r.key.length + lengthDelimiterLen r.value.length + 1 +
      r.key.length + r.value.length + 4 := by
  simp only [LogRecord.encode, LogRecord.encodeBody, lengthDelimiterLen, List.length_append,
    List.length_cons, u32be_length]
  omega

/-! ## Positional-read lemmas -/

theorem readBytes_exact (file : List Nat) (off len : Nat)
    (h : len ≤ (file.drop off).length) :
    readBytes file off len = (file.drop off).take len := by
  unfold readBytes
  have hl : ((file.drop off).take len).length = len := by
    rw [List.length_take]
    omega
  rw [hl]
  simp

theorem readBytes_split (file : List Nat) (off len : Nat) (a b : List Nat)
    (hdrop : file.drop off = a ++ b) (hlen : a.length ≤ len) :
    ∃ tl, readBytes file off len = a ++ tl := by
  unfold readBytes
  rw [hdrop, List.take_append_eq_append_take, List.take_of_length_le hlen,
    List.append_assoc]
  exact ⟨_, rfl⟩

/-- Decoding an intact encoded record from anywhere inside a file recovers the
record and its encoded size, for any surrounding bytes. -/
theorem readLogRecord_encode (pre post : List Nat) (r : LogRecord)
    (hbk : Bytes r.key) (hbv : Bytes r.value)
    (hne : ¬ (r.key.length = 0 ∧ r.value.length = 0))
    (hkl : r.key.length < 2 ^ 32) (hvl : r.value.length < 2 ^ 32) :
    readLogRecord (pre ++ r.encode ++ post) pre.length = .ok (r, r.encode.length) := by
  obtain ⟨kb, vb, ty⟩ := r
  replace hbk : Bytes kb := hbk
  replace hbv : Bytes vb := hbv
  replace hne : ¬ (kb.length = 0 ∧ vb.length = 0) := hne
  replace hkl : kb.length < 2 ^ 32 := hkl
  replace hvl : vb.length < 2 ^ 32 := hvl
  have hK : (encodeVarint kb.length).length ≤ 5 := encodeVarint_length_le_five _ hkl
  have hV : (encodeVarint vb.length).length ≤ 5 := encodeVarint_length_le_five _ hvl
  have hcrc : (LogRecord.mk kb vb ty).getCrc < 2 ^ 32 := getCrc_lt _ hbk hbv
  have hencS : (LogRecord.mk kb vb ty).encode =
      (ty.toU8 :: (encodeVarint kb.length ++ encodeVarint vb.length)) ++
        (kb ++ vb ++ u32be (LogRecord.mk kb vb ty).getCrc) := by
    simp [LogRecord.encode, LogRecord.encodeBody, List.append_assoc]
  have hdrop : (pre ++ (LogRecord.mk kb vb ty).encode ++ post).drop pre.length =
      (ty.toU8 :: (encodeVarint kb.length ++ encodeVarint vb.length)) ++
        ((kb ++ vb ++ u32be (LogRecord.mk kb vb ty).getCrc) ++ post) := by
    rw [List.append_assoc, List.drop_left, hencS, List.append_assoc]
  obtain ⟨tl, htl⟩ := readBytes_split _ pre.length maxLogRecordHeaderSize _ _ hdrop
    (by simp only [List.length_cons, List.length_append, maxLogRecordHeaderSize]; omega)
  have hdec1 : decodeVarint 10 (encodeVarint kb.length ++ (encodeVarint vb.length ++ tl)) =
      some (kb.length, encodeVarint vb.length ++ tl) :=
    decodeVarint_encode 10 kb.length _ (by omega)
  have hdec2 : decodeVarint 10 (encodeVarint vb.length ++ tl) = some (vb.length, tl) :=
    decodeVarint_encode 10 vb.length _ (by omega)
  have hdrop2 : (pre ++ (LogRecord.mk kb vb ty).encode ++ post).drop
      (pre.length + (lengthDelimiterLen kb.length + lengthDelimiterLen vb.length + 1)) =
      (kb ++ vb ++ u32be (LogRecord.mk kb vb ty).getCrc) ++ post := by
    have hsplit : (pre ++ (LogRecord.mk kb vb ty).encode ++ post).drop
        (pre.length + (lengthDelimiterLen kb.length + lengthDelimiterLen vb.length + 1)) =
        ((pre ++ (LogRecord.mk kb vb ty).encode ++ post).drop pre.length).drop
          (lengthDelimiterLen kb.length + lengthDelimiterLen vb.length + 1) :=
      (List.drop_drop _ _ _).symm
    rw [hsplit, hdrop]
    exact List.drop_left'
      (by simp only [List.length_cons, List.length_append, lengthDelimiterLen])
  have hbuflen : (kb ++ vb ++ u32be (LogRecord.mk kb vb ty).getCrc).length =
      kb.length + vb.length + 4 := by
    simp only [List.length_append, u32be_length]
  have hkv : readBytes (pre ++ (LogRecord.mk kb vb ty).encode ++ post)
      (pre.length + (lengthDelimiterLen kb.length + lengthDelimiterLen vb.length + 1))
      (kb.length + vb.length + 4) =
      kb ++ vb ++ u32be (LogRecord.mk kb vb ty).getCrc := by
    rw [readBytes_exact _ _ _
        (by rw [hdrop2]; simp only [List.length_append, u32be_length]; omega),
      hdrop2, List.take_append_eq_append_take]
    rw [List.take_of_length_le (by omega), hbuflen]
    simp
  have htake : (kb ++ vb ++ u32be (LogRecord.mk kb vb ty).getCrc).take kb.length = kb := by
    rw [List.append_assoc]
    exact List.take_left kb _
  have hvalue : ((kb ++ vb ++ u32be (LogRecord.mk kb vb ty).getCrc).take
      ((kb ++ vb ++ u32be (LogRecord.mk kb vb ty).getCrc).length - 4)).drop kb.length = vb := by
    rw [hbuflen]
    have : kb.length + vb.length + 4 - 4 = (kb ++ vb).length := by simp
    rw [this, List.take_left (kb ++ vb) _, List.drop_left]
  have hcrcfield : (kb ++ vb ++ u32be (LogRecord.mk kb vb ty).getCrc).drop
      (kb.length + vb.length) = u32be (LogRecord.mk kb vb ty).getCrc :=
    List.drop_left' (by simp)
  have hget : getU32be (u32be (LogRecord.mk kb vb ty).getCrc) = (LogRecord.mk kb vb ty).getCrc :=
    getU32be_u32be _ hcrc
  have hsz : lengthDelimiterLen kb.length + lengthDelimiterLen vb.length + 1 +
      (kb.length + vb.length + 4) = (LogRecord.mk kb vb ty).encode.length := by
    simp only [LogRecord.encode, LogRecord.encodeBody, List.length_append, List.length_cons,
      u32be_length, lengthDelimiterLen]
    omega
  rw [List.append_assoc] at htl hkv htake hvalue hcrcfield
  simp only [readLogRecord, htl, List.cons_append, List.append_assoc, hdec1, hdec2, hne,
    if_false, fromU8_toU8, hkv, htake, hvalue, hcrcfield, hget, ne_eq, eq_self_iff_true,
    not_true_eq_false, ite_false]
  rw [← hsz]
  simp [Nat.add_assoc]

/-! ## Single-bit corruption -/

theorem flipAt_length (l : List Nat) (i j : Nat) : (flipAt l i j).length = l.length := by
  simp [flipAt]

theorem flipAt_decomp (l : List Nat) (i j : Nat) (h : i < l.length) :
    flipAt l i j = l.take i ++ (l.getD i 0 ^^^ 2 ^ j) :: l.drop (i + 1) := by
  unfold flipAt
  rw [List.getD_eq_getElem l 0 h, List.set_eq_take_cons_drop _ h]

theorem flipAt_append_right (a b : List Nat) (i j : Nat) (h : a.length ≤ i) :
    flipAt (a ++ b) i j = a ++ flipAt b (i - a.length) j := by
  unfold flipAt
  rw [List.set_append_right _ _ h, List.getD_append_right a b _ _ h]

theorem flipAt_append_left (a b : List Nat) (i j : Nat) (h : i < a.length) :
    flipAt (a ++ b) i j = flipAt a i j ++ b := by
  unfold flipAt
  rw [List.set_append_left _ _ h, List.getD_append _ _ _ _ h]

theorem getU32be_flip_ne (n m j : Nat) (hn : n < 2 ^ 32) (hm : m < 4) (hj : j < 8) :
    getU32be (flipAt (u32be n) m j) ≠ n := by
  have hj2 : (2 : Nat) ^ j < 256 := by
    calc (2 : Nat) ^ j < 2 ^ 8 := Nat.pow_lt_pow_right (by omega) hj
    _ = 256 := by norm_num
  interval_cases m
  · have hne := xor_two_pow_ne (n / 2 ^ 24 % 256) j
    show (n / 2 ^ 24 % 256 ^^^ 2 ^ j) * 2 ^ 24 + n / 2 ^ 16 % 256 * 2 ^ 16 +
      n / 2 ^ 8 % 256 * 2 ^ 8 + n % 256 ≠ n
    omega
  · have hne := xor_two_pow_ne (n / 2 ^ 16 % 256) j
    show n / 2 ^ 24 % 256 * 2 ^ 24 + (n / 2 ^ 16 % 256 ^^^ 2 ^ j) * 2 ^ 16 +
      n / 2 ^ 8 % 256 * 2 ^ 8 + n % 256 ≠ n
    omega
  · have hne := xor_two_pow_ne (n / 2 ^ 8 % 256) j
    show n / 2 ^ 24 % 256 * 2 ^ 24 + n / 2 ^ 16 % 256 * 2 ^ 16 +
      (n / 2 ^ 8 % 256 ^^^ 2 ^ j) * 2 ^ 8 + n % 256 ≠ n
    omega
  · have hne := xor_two_pow_ne (n % 256) j
    have hlt : n % 256 ^^^ 2 ^ j < 256 := by
      have h1 : n % 256 < 2 ^ 8 := by omega
      have := Nat.xor_lt_two_pow h1 (by omega : (2 : Nat) ^ j < 2 ^ 8)
      omega
    show n / 2 ^ 24 % 256 * 2 ^ 24 + n / 2 ^ 16 % 256 * 2 ^ 16 +
      n / 2 ^ 8 % 256 * 2 ^ 8 + (n % 256 ^^^ 2 ^ j) ≠ n
    omega

/-- Flipping one bit inside the concatenated key/value region changes the CRC
recomputed by the decoder. -/
theorem getCrc_flip_ne (kb vb : List Nat) (ty : LogRecordType) (m j : Nat)
    (hm : m < (kb ++ vb).length) (hj : j < 8) :
    (LogRecord.mk ((flipAt (kb ++ vb) m j).take kb.length)
        ((flipAt (kb ++ vb) m j).drop kb.length) ty).getCrc ≠
      (LogRecord.mk kb vb ty).getCrc := by
  have hlen : (flipAt (kb ++ vb) m j).length = (kb ++ vb).length := flipAt_length _ _ _
  have hklen : ((flipAt (kb ++ vb) m j).take kb.length).length = kb.length := by
    rw [List.length_take, hlen]
    simp
  have hvlen : ((flipAt (kb ++ vb) m j).drop kb.length).length = vb.length := by
    rw [List.length_drop, hlen]
    simp
  have hdecomp : flipAt (kb ++ vb) m j =
      (kb ++ vb).take m ++ ((kb ++ vb).getD m 0 ^^^ 2 ^ j) :: (kb ++ vb).drop (m + 1) :=
    flipAt_decomp _ _ _ hm
  have horig : kb ++ vb =
      (kb ++ vb).take m ++ (kb ++ vb).getD m 0 :: (kb ++ vb).drop (m + 1) := by
    conv_lhs => rw [← List.take_append_drop m (kb ++ vb)]
    rw [List.drop_eq_getElem_cons hm, List.getD_eq_getElem _ _ hm]
  intro heq
  apply crc32_flip_ne
    (ty.toU8 :: ((encodeVarint kb.length ++ encodeVarint vb.length) ++ (kb ++ vb).take m))
    ((kb ++ vb).drop (m + 1)) ((kb ++ vb).getD m 0) j hj
  have hb1 : (LogRecord.mk ((flipAt (kb ++ vb) m j).take kb.length)
      ((flipAt (kb ++ vb) m j).drop kb.length) ty).encodeBody =
      (ty.toU8 :: ((encodeVarint kb.length ++ encodeVarint vb.length) ++ (kb ++ vb).take m)) ++
        ((kb ++ vb).getD m 0 ^^^ 2 ^ j) :: (kb ++ vb).drop (m + 1) := by
    simp only [LogRecord.encodeBody, hklen, hvlen, List.cons_append]
    rw [List.append_assoc _ ((flipAt (kb ++ vb) m j).take kb.length),
      List.take_append_drop, hdecomp]
    simp [List.append_assoc]
  have hb2 : (LogRecord.mk kb vb ty).encodeBody =
      (ty.toU8 :: ((encodeVarint kb.length ++ encodeVarint vb.length) ++ (kb ++ vb).take m)) ++
        (kb ++ vb).getD m 0 :: (kb ++ vb).drop (m + 1) := by
    simp only [LogRecord.encodeBody, List.cons_append]
    conv_lhs => rw [List.append_assoc _ kb vb, horig]
    simp [List.append_assoc]
  calc crc32 (_ ++ ((kb ++ vb).getD m 0 ^^^ 2 ^ j) :: _)
      = (LogRecord.mk ((flipAt (kb ++ vb) m j).take kb.length)
          ((flipAt (kb ++ vb) m j).drop kb.length) ty).getCrc := by
        rw [LogRecord.getCrc, hb1]
    _ = (LogRecord.mk kb vb ty).getCrc := heq
    _ = crc32 (_ ++ (kb ++ vb).getD m 0 :: _) := by
        rw [LogRecord.getCrc, hb2]

/-- Decoding a record whose stored CRC fails to match the recomputed CRC of
the parsed fields reports `InvalidLogRecordCrc`. -/
theorem readLogRecord_corrupt (pre post data : List Nat) (ty : LogRecordType) (ks vs : Nat)
    (hks : ks < 2 ^ 32) (hvs : vs < 2 ^ 32) (hne : ¬ (ks = 0 ∧ vs = 0))
    (hdata : data.length = ks + vs + 4)
    (hbad : getU32be (data.drop (ks + vs)) ≠
      (LogRecord.mk (data.take ks) ((data.take (ks + vs)).drop ks) ty).getCrc) :
    readLogRecord
      (pre ++ ((ty.toU8 :: (encodeVarint ks ++ encodeVarint vs)) ++ data) ++ post)
      pre.length = .err .InvalidLogRecordCrc := by
  have hK : (encodeVarint ks).length ≤ 5 := encodeVarint_length_le_five _ hks
  have hV : (encodeVarint vs).length ≤ 5 := encodeVarint_length_le_five _ hvs
  have hdrop : (pre ++ ((ty.toU8 :: (encodeVarint ks ++ encodeVarint vs)) ++ data) ++ post).drop
      pre.length = (ty.toU8 :: (encodeVarint ks ++ encodeVarint vs)) ++ (data ++ post) := by
    rw [List.append_assoc, List.drop_left, List.append_assoc]
  obtain ⟨tl, htl⟩ := readBytes_split _ pre.length maxLogRecordHeaderSize _ _ hdrop
    (by simp only [List.length_cons, List.length_append, maxLogRecordHeaderSize]; omega)
  have hdec1 : decodeVarint 10 (encodeVarint ks ++ (encodeVarint vs ++ tl)) =
      some (ks, encodeVarint vs ++ tl) := decodeVarint_encode 10 ks _ (by omega)
  have hdec2 : decodeVarint 10 (encodeVarint vs ++ tl) = some (vs, tl) :=
    decodeVarint_encode 10 vs _ (by omega)
  have hdrop2 : (pre ++ ((ty.toU8 :: (encodeVarint ks ++ encodeVarint vs)) ++ data) ++ post).drop
      (pre.length + (lengthDelimiterLen ks + lengthDelimiterLen vs + 1)) = data ++ post := by
    have hsplit : (pre ++ ((ty.toU8 :: (encodeVarint ks ++ encodeVarint vs)) ++ data) ++
        post).drop (pre.length + (lengthDelimiterLen ks + lengthDelimiterLen vs + 1)) =
        ((pre ++ ((ty.toU8 :: (encodeVarint ks ++ encodeVarint vs)) ++ data) ++ post).drop
          pre.length).drop (lengthDelimiterLen ks + lengthDelimiterLen vs + 1) :=
      (List.drop_drop _ _ _).symm
    rw [hsplit, hdrop]
    exact List.drop_left'
      (by simp only [List.length_cons, List.length_append, lengthDelimiterLen])
  have hkv : readBytes (pre ++ ((ty.toU8 :: (encodeVarint ks ++ encodeVarint vs)) ++ data) ++
      post) (pre.length + (lengthDelimiterLen ks + lengthDelimiterLen vs + 1))
      (ks + vs + 4) = data := by
    rw [readBytes_exact _ _ _ (by rw [hdrop2]; simp only [List.length_append]; omega), hdrop2,
      List.take_append_eq_append_take]
    rw [List.take_of_length_le (by omega), hdata]
    simp
  have hlen4 : data.length - 4 = ks + vs := by omega
  simp only [List.cons_append, List.append_assoc] at htl hkv
  have hfinal : getU32be (data.drop (ks + vs)) ≠
      (LogRecord.mk (data.take ks) ((data.take (data.length - 4)).drop ks) ty).getCrc := by
    rw [hlen4]
    exact hbad
  simp only [readLogRecord, htl, List.cons_append, List.append_assoc, hdec1, hdec2, hne,
    if_false, fromU8_toU8, hkv]
  exact if_pos hfinal

/-! ## Append and rotation -/

theorem alLookup_none_of_gt {β : Type} (l : List (Nat × β)) (x : Nat)
    (h : ∀ p ∈ l, p.1 < x) : alLookup l x = none := by
  induction l with
  | nil => rfl
  | cons p rest ih =>
    obtain ⟨a, b⟩ := p
    have ha := h (a, b) (List.mem_cons_self _ _)
    simp only [alLookup_cons, if_neg (by omega : ¬ a = x)]
    exact ih fun q hq => h q (List.mem_cons_of_mem _ hq)

/-- Behaviour of `append_log_record` from a structurally sound state: the
record lands at the end of the (possibly fresh) active segment, the locator
points at its first byte, and all other segments are untouched. -/
theorem appendLogRecord_spec (s : Engine) (record : LogRecord) (h : SInv s) :
    SInv (s.appendLogRecord record).2 ∧
    (s.appendLogRecord record).1.file_id = (s.appendLogRecord record).2.activeId ∧
    fileContents (s.appendLogRecord record).2 (s.appendLogRecord record).1.file_id =
      fileContents s (s.appendLogRecord record).1.file_id ++ record.encode ∧
    (s.appendLogRecord record).1.offset =
      (fileContents s (s.appendLogRecord record).1.file_id).length ∧
    (∀ fid, fid ≠ (s.appendLogRecord record).1.file_id →
      fileContents (s.appendLogRecord record).2 fid = fileContents s fid) ∧
    (s.appendLogRecord record).2.index = s.index ∧
    (∀ x, x ∈ s.olderIds → x ∈ (s.appendLogRecord record).2.olderIds) ∧
    ((s.appendLogRecord record).2.activeId = s.activeId ∨
      (s.activeId ∈ (s.appendLogRecord record).2.olderIds)) := by
  obtain ⟨hoff, hbound⟩ := h
  by_cases hrot : s.activeOff + record.encode.length > s.dataFileSize
  · have hnone : alLookup s.files (s.activeId + 1) = none :=
      alLookup_none_of_gt _ _ fun p hp => by
        have := hbound p hp
        omega
    simp only [Engine.appendLogRecord, if_pos hrot, hnone]
    constructor
    · constructor
      · simp [fileContents, alLookup_insert_self]
      · intro p hp
        rcases mem_alInsert hp with hp1 | hp1
        · simp [hp1]
        · rcases mem_alInsert hp1 with hp2 | hp2
          · simp [hp2]
          · have := hbound p hp2
            simp
            omega
    refine ⟨trivial, ?_, ?_, ?_, trivial, ?_, ?_⟩
    · simp [fileContents, alLookup_insert_self, hnone]
    · simp [fileContents, alLookup_insert_self, hnone]
    · intro fid hfid
      simp only [fileContents]
      rw [alLookup_insert_ne _ _ _ _ hfid, alLookup_insert_ne _ _ _ _ hfid]
    · intro x hx
      exact List.mem_cons_of_mem _ hx
    · exact Or.inr (List.mem_cons_self _ _)
  · simp only [Engine.appendLogRecord, if_neg hrot]
    constructor
    · constructor
      · simp [fileContents, alLookup_insert_self, hoff]
      · intro p hp
        rcases mem_alInsert hp with hp1 | hp1
        · simp [hp1]
        · exact hbound p hp1
    refine ⟨trivial, ?_, ?_, ?_, trivial, fun x hx => hx, ?_⟩
    · simp [fileContents, alLookup_insert_self]
    · exact hoff
    · intro fid hfid
      simp only [fileContents]
      rw [alLookup_insert_ne _ _ _ _ hfid]
    · exact Or.inl trivial

/-! ## Point operations preserve the invariants -/

theorem put_spec (s : Engine) (key value : List Nat) (h : SInv s) (hk : key ≠ []) :
    (s.put key value).1 = .ok () ∧ SInv (s.put key value).2 ∧
    goodEntry (s.put key value).2 key value ∧
    ∀ k₂ v₂, k₂ ≠ key → goodEntry s k₂ v₂ → goodEntry (s.put key value).2 k₂ v₂ := by
  obtain ⟨hinv, hfid, hcontent, hoffset, hother, hindex, holder, hactive⟩ :=
    appendLogRecord_spec s (putRecord key value) h
  have hput : s.put key value =
      (.ok (), { (s.appendLogRecord (putRecord key value)).2 with
        index := alInsert (s.appendLogRecord (putRecord key value)).2.index key
          (s.appendLogRecord (putRecord key value)).1 }) := by
    simp [Engine.put, hk, indexPut, putRecord, logRecordKeyWithSeq, NON_TRANSACTION_SEQ_NO]
  rw [hput]
  refine ⟨rfl, hinv, ?_, ?_⟩
  · refine ⟨(s.appendLogRecord (putRecord key value)).1,
      fileContents s (s.appendLogRecord (putRecord key value)).1.file_id, [], ?_, Or.inl hfid,
      ?_, hoffset⟩
    · show alLookup (alInsert (s.appendLogRecord (putRecord key value)).2.index key
        (s.appendLogRecord (putRecord key value)).1) key =
          some (s.appendLogRecord (putRecord key value)).1
      exact alLookup_insert_self _ _ _
    · show fileContents (s.appendLogRecord (putRecord key value)).2
          (s.appendLogRecord (putRecord key value)).1.file_id =
        fileContents s (s.appendLogRecord (putRecord key value)).1.file_id ++
          (putRecord key value).encode ++ []
      rw [hcontent, List.append_nil]
  · rintro k₂ v₂ hne ⟨pos₂, preB, postB, hlook, hloc, hfile, hoff₂⟩
    have hlook2 : alLookup (alInsert (s.appendLogRecord (putRecord key value)).2.index key
        (s.appendLogRecord (putRecord key value)).1) k₂ = some pos₂ := by
      rw [alLookup_insert_ne _ _ _ _ hne, hindex]
      exact hlook
    have hloc2 : pos₂.file_id = (s.appendLogRecord (putRecord key value)).2.activeId ∨
        pos₂.file_id ∈ (s.appendLogRecord (putRecord key value)).2.olderIds := by
      rcases hloc with hl | hl
      · rcases hactive with ha | ha
        · exact Or.inl (by rw [hl, ha])
        · exact Or.inr (by rw [hl]; exact ha)
      · exact Or.inr (holder _ hl)
    by_cases hsame : pos₂.file_id = (s.appendLogRecord (putRecord key value)).1.file_id
    · refine ⟨pos₂, preB, postB ++ (putRecord key value).encode, hlook2, hloc2, ?_, hoff₂⟩
      show fileContents (s.appendLogRecord (putRecord key value)).2 pos₂.file_id =
        preB ++ (putRecord k₂ v₂).encode ++ (postB ++ (putRecord key value).encode)
      rw [hsame, hcontent, ← hsame, hfile]
      simp [List.append_assoc]
    · refine ⟨pos₂, preB, postB, hlook2, hloc2, ?_, hoff₂⟩
      show fileContents (s.appendLogRecord (putRecord key value)).2 pos₂.file_id =
        preB ++ (putRecord k₂ v₂).encode ++ postB
      rw [hother _ hsame, hfile]

theorem delete_spec (s : Engine) (key : List Nat) (h : SInv s) :
    SInv (s.delete key).2 ∧
    ∀ k₂ v₂, k₂ ≠ key → goodEntry s k₂ v₂ → goodEntry (s.delete key).2 k₂ v₂ := by
  by_cases hk : key = []
  · have hdel : s.delete key = (.err .KeyIsEmpty, s) := by
      subst hk
      rfl
    rw [hdel]
    exact ⟨h, fun _ _ _ hge => hge⟩
  · rcases hlook : indexGet s.index key with _ | pos₀
    · have hdel : s.delete key = (.ok (), s) := by
        simp only [Engine.delete, if_neg hk, hlook]
      rw [hdel]
      exact ⟨h, fun _ _ _ hge => hge⟩
    · obtain ⟨hinv, hfid, hcontent, hoffset, hother, hindex, holder, hactive⟩ :=
        appendLogRecord_spec s ⟨logRecordKeyWithSeq key NON_TRANSACTION_SEQ_NO, [],
          .DELETED⟩ h
      have hsome : (alLookup (s.appendLogRecord
          ⟨logRecordKeyWithSeq key NON_TRANSACTION_SEQ_NO, [],
            .DELETED⟩).2.index key).isSome = true := by
        rw [show (s.appendLogRecord ⟨logRecordKeyWithSeq key NON_TRANSACTION_SEQ_NO, [],
          LogRecordType.DELETED⟩).2.index = s.index from hindex]
        simp only [indexGet] at hlook
        simp [hlook]
      have hdel : s.delete key =
          (.ok (), { (s.appendLogRecord ⟨logRecordKeyWithSeq key NON_TRANSACTION_SEQ_NO, [],
              .DELETED⟩).2 with
            index := alErase (s.appendLogRecord
              ⟨logRecordKeyWithSeq key NON_TRANSACTION_SEQ_NO, [],
                .DELETED⟩).2.index key }) := by
        simp only [Engine.delete, if_neg hk, hlook, indexDelete, hsome, if_true]
      rw [hdel]
      refine ⟨hinv, ?_⟩
      rintro k₂ v₂ hne ⟨pos₂, preB, postB, hlook₂, hloc, hfile, hoff₂⟩
      have hlook2 : alLookup (alErase (s.appendLogRecord
          ⟨logRecordKeyWithSeq key NON_TRANSACTION_SEQ_NO, [],
            .DELETED⟩).2.index key) k₂ = some pos₂ := by
        rw [alLookup_erase_ne _ _ _ hne, hindex]
        exact hlook₂
      have hloc2 : pos₂.file_id = (s.appendLogRecord
          ⟨logRecordKeyWithSeq key NON_TRANSACTION_SEQ_NO, [],
            .DELETED⟩).2.activeId ∨
          pos₂.file_id ∈ (s.appendLogRecord
            ⟨logRecordKeyWithSeq key NON_TRANSACTION_SEQ_NO, [],
              .DELETED⟩).2.olderIds := by
        rcases hloc with hl | hl
        · rcases hactive with ha | ha
          · exact Or.inl (by rw [hl, ha])
          · exact Or.inr (by rw [hl]; exact ha)
        · exact Or.inr (holder _ hl)
      by_cases hsame : pos₂.file_id = (s.appendLogRecord
          ⟨logRecordKeyWithSeq key NON_TRANSACTION_SEQ_NO, [], .DELETED⟩).1.file_id
      · refine ⟨pos₂, preB, postB ++ (LogRecord.mk (logRecordKeyWithSeq key
          NON_TRANSACTION_SEQ_NO) [] .DELETED).encode, hlook2, hloc2, ?_, hoff₂⟩
        show fileContents (s.appendLogRecord ⟨logRecordKeyWithSeq key NON_TRANSACTION_SEQ_NO,
            [], .DELETED⟩).2 pos₂.file_id =
          preB ++ (putRecord k₂ v₂).encode ++ (postB ++ (LogRecord.mk (logRecordKeyWithSeq key
            NON_TRANSACTION_SEQ_NO) [] .DELETED).encode)
        rw [hsame, hcontent, ← hsame, hfile]
        simp [List.append_assoc]
      · refine ⟨pos₂, preB, postB, hlook2, hloc2, ?_, hoff₂⟩
        show fileContents (s.appendLogRecord ⟨logRecordKeyWithSeq key NON_TRANSACTION_SEQ_NO,
            [], .DELETED⟩).2 pos₂.file_id = preB ++ (putRecord k₂ v₂).encode ++ postB
        rw [hother _ hsame, hfile]


theorem get_goodEntry (s : Engine) (key value : List Nat) (hk : key ≠ [])
    (hbk : Bytes key) (hbv : Bytes value) (hkl : key.length < 2 ^ 31)
    (hvl : value.length < 2 ^ 32) (hge : goodEntry s key value) :
    s.get key = .ok value := by
  obtain ⟨pos, preB, postB, hlook, hloc, hfile, hoff⟩ := hge
  have hread : readLogRecord (fileContents s pos.file_id) pos.offset =
      .ok (putRecord key value, (putRecord key value).encode.length) := by
    rw [hfile, hoff]
    apply readLogRecord_encode
    · intro b hb
      simp only [putRecord, logRecordKeyWithSeq, NON_TRANSACTION_SEQ_NO] at hb
      have h0 : encodeVarint 0 = [0] := rfl
      rw [h0] at hb
      rcases List.mem_cons.mp hb with hb | hb
      · omega
      · exact hbk b hb
    · exact hbv
    · simp only [putRecord, logRecordKeyWithSeq, NON_TRANSACTION_SEQ_NO]
      rw [show encodeVarint 0 = [0] from rfl]
      intro ⟨h1, _⟩
      simp at h1
    · simp only [putRecord, logRecordKeyWithSeq, NON_TRANSACTION_SEQ_NO]
      have h0 : encodeVarint 0 = [0] := rfl
      rw [h0]
      simp only [List.length_append, List.length_cons, List.length_nil]
      have : (2 : Nat) ^ 31 + 1 < 2 ^ 32 := by norm_num
      omega
    · exact hvl
  simp only [Engine.get, if_neg hk, hlook]
  by_cases hfid : s.activeId = pos.file_id
  · simp only [Engine.getValueByPosition, if_pos hfid, hfid, hread]
    simp [putRecord]
  · have hmem : pos.file_id ∈ s.olderIds := by
      rcases hloc with hl | hl
      · exact absurd hl.symm hfid
      · exact hl
    simp only [Engine.getValueByPosition, if_neg hfid, if_pos hmem, hread]
    simp [putRecord]

theorem applyOp_spec (s : Engine) (op : Op) (key value : List Nat) (h : SInv s)
    (hop : op.key ≠ key) (hge : goodEntry s key value) :
    SInv (applyOp s op) ∧ goodEntry (applyOp s op) key value := by
  cases op with
  | putOp k₂ v₂ =>
    by_cases hk₂ : k₂ = []
    · have : applyOp s (.putOp k₂ v₂) = s := by
        simp [applyOp, Engine.put, hk₂]
      rw [this]
      exact ⟨h, hge⟩
    · obtain ⟨_, hinv, _, hpres⟩ := put_spec s k₂ v₂ h hk₂
      exact ⟨hinv, hpres key value (fun heq => hop (by simpa [Op.key] using heq.symm)) hge⟩
  | delOp k₂ =>
    obtain ⟨hinv, hpres⟩ := delete_spec s k₂ h
    exact ⟨hinv, hpres key value (fun heq => hop (by simpa [Op.key] using heq.symm)) hge⟩

theorem runOps_spec (ops : List Op) : ∀ (s : Engine) (key value : List Nat), SInv s →
    (∀ op ∈ ops, op.key ≠ key) → goodEntry s key value →
    SInv (runOps s ops) ∧ goodEntry (runOps s ops) key value := by
  induction ops with
  | nil => intro s key value h _ hge; exact ⟨h, hge⟩
  | cons op rest ih =>
    intro s key value h hops hge
    obtain ⟨h₁, hge₁⟩ := applyOp_spec s op key value h
      (hops op (List.mem_cons_self _ _)) hge
    simpa [runOps] using ih (applyOp s op) key value h₁
      (fun q hq => hops q (List.mem_cons_of_mem _ hq)) hge₁

/-! # Claim theorems -/

set_option maxRecDepth 100000

/-- C1: the spec says a TXN_FINISH record with a nonzero sequence number makes replay
apply every buffered record of that transaction, so a batch committed before a clean
close is get-able after reopen.  The code never applies the buffer (the apply branch
is nested under the negation of its own guard), so a committed batch is lost: a fresh
engine commits `{[10] ↦ [20]}` (get succeeds before close), yet after reopening the
produced directory the key is gone. -/
theorem C1_committed_batch_lost_on_replay :
    resGet engineAfterOneCommit [10] = some (.ok [20]) ∧
    resGet reopenAfterOneCommit [10] = some (.err .KeyNotFound) := by
  constructor
  · decide
  · decide

/-- C2: the spec says that after open the active segment write offset equals the
offset at which replay stopped (the logical file length).  The guard `i ==
file_ids.len()` in `load_index_from_data_file` is never true, so the offset is left
at 0: reopening a directory whose single segment holds one 10-byte record yields
write offset 0 while the file length is 10. -/
theorem C2_write_offset_not_restored :
    resActiveOff reopenAfterOnePut = some 0 ∧ resActiveLen reopenAfterOnePut = some 10 := by
  constructor
  · decide
  · decide

/-- C3 counterexample: after a fresh engine performs exactly two single-key batch
commits and cleanly closes, reopening does not set the sequence counter to 4. -/
theorem C3_seqno_after_reopen_not_four : resSeqNo reopenAfterTwoCommits ≠ some 4 := by
  decide

/-- C3 (amended): commits allocate sequence numbers 1 and 2 from a fresh engine
(`fetch_add` returns the old value), so the maximum observed during recovery is 2
and reopening sets the counter to 2 + 1 = 3, not 4. -/
theorem C3_seqno_after_reopen_is_three : resSeqNo reopenAfterTwoCommits = some 3 := by
  decide

/-- C4: read-your-writes for non-batched operations.  From any structurally sound
state, after `put key value` succeeds, `get key` returns `value` after any further
sequence of puts/deletes that do not touch `key` — including sequences that force
segment rotation. -/
theorem C4_read_your_writes (s : Engine) (key value : List Nat) (ops : List Op)
    (h : SInv s) (hk : key ≠ []) (hbk : Bytes key) (hbv : Bytes value)
    (hkl : key.length < 2 ^ 31) (hvl : value.length < 2 ^ 32)
    (hops : ∀ op ∈ ops, op.key ≠ key) :
    (s.put key value).1 = .ok () ∧
    (runOps (s.put key value).2 ops).get key = .ok value := by
  obtain ⟨hok, hinv, hge, _⟩ := put_spec s key value h hk
  obtain ⟨_, hge₂⟩ := runOps_spec ops (s.put key value).2 key value hinv hops hge
  exact ⟨hok, get_goodEntry _ key value hk hbk hbv hkl hvl hge₂⟩

/-- C4 witness: a fresh engine with a 100-byte segment threshold; the second put
rotates the active segment and the first key stays readable. -/
theorem C4_read_your_writes_witness :
    (SInv freshEngine ∧ ([1] : List Nat) ≠ [] ∧
      (∀ op ∈ [Op.putOp [3] (List.replicate 85 7)], op.key ≠ [1])) ∧
    (freshEngine.put [1] [2]).1 = .ok () ∧
    (runOps (freshEngine.put [1] [2]).2 [Op.putOp [3] (List.replicate 85 7)]).get [1] =
      .ok [2] := by
  refine ⟨⟨by decide, by decide, by decide⟩, ?_⟩
  exact C4_read_your_writes freshEngine [1] [2] [Op.putOp [3] (List.replicate 85 7)]
    (by decide) (by decide) (by decide) (by decide) (by decide) (by decide) (by decide)

/-- C5 counterexample: the record with empty key and empty value does not round-trip;
its decode reports end-of-file instead of returning the record. -/
theorem C5_roundtrip_fails_on_empty_record :
    readLogRecord (LogRecord.mk [] [] .NORMAL).encode 0 = .err .ReadDataFileEOF ∧
    readLogRecord (LogRecord.mk [] [] .NORMAL).encode 0 ≠
      .ok (LogRecord.mk [] [] .NORMAL, (LogRecord.mk [] [] .NORMAL).encode.length) := by
  constructor
  · decide
  · decide

/-- C5 (amended): codec round-trip holds for every record whose key and value are
byte sequences not both empty (each shorter than 2^32, as in the Rust types):
decoding the encoding from offset 0 yields the record and its encoded size.
A record with empty key and empty value instead decodes as `ReadDataFileEOF`. -/
theorem C5_codec_roundtrip (r : LogRecord) (hbk : Bytes r.key) (hbv : Bytes r.value)
    (hne : ¬ (r.key.length = 0 ∧ r.value.length = 0))
    (hkl : r.key.length < 2 ^ 32) (hvl : r.value.length < 2 ^ 32) :
    readLogRecord r.encode 0 = .ok (r, r.encode.length) := by
  have h := readLogRecord_encode [] [] r hbk hbv hne hkl hvl
  simpa using h

/-- C5 witness: the round-trip at a concrete record. -/
theorem C5_codec_roundtrip_witness :
    (Bytes ([110] : List Nat) ∧ Bytes ([7, 8] : List Nat)) ∧
    readLogRecord (LogRecord.mk [110] [7, 8] .NORMAL).encode 0 =
      .ok (LogRecord.mk [110] [7, 8] .NORMAL,
        (LogRecord.mk [110] [7, 8] .NORMAL).encode.length) := by
  refine ⟨⟨by decide, by decide⟩, ?_⟩
  exact C5_codec_roundtrip (LogRecord.mk [110] [7, 8] .NORMAL) (by decide) (by decide)
    (by decide) (by decide) (by decide)

/-- C6 counterexample: flipping bit 2 of the type byte of an encoded NORMAL record
turns the tag into 5, and decode panics inside `LogRecordType::from_u8` instead of
returning `InvalidLogRecordCrc`. -/
theorem C6_type_byte_flip_panics :
    readLogRecord (flipAt (LogRecord.mk [1] [2] .NORMAL).encode 0 2) 0 = .panic ∧
    readLogRecord (flipAt (LogRecord.mk [1] [2] .NORMAL).encode 0 2) 0 ≠
      .err .InvalidLogRecordCrc := by
  constructor
  · decide
  · decide

/-- C6 (amended): bit flips strictly inside the key, value, or CRC bytes of an
encoded record (byte index at least the actual header length) always make decode
return `InvalidLogRecordCrc`; flips in the type byte can instead panic on an
invalid tag, and flips in the size varints can be misread (for example as EOF). -/
theorem C6_crc_detects_data_flips (r : LogRecord) (i j : Nat)
    (hbk : Bytes r.key) (hbv : Bytes r.value)
    (hne : ¬ (r.key.length = 0 ∧ r.value.length = 0))
    (hkl : r.key.length < 2 ^ 32) (hvl : r.value.length < 2 ^ 32)
    (hi : lengthDelimiterLen r.key.length + lengthDelimiterLen r.value.length + 1 ≤ i)
    (hi2 : i < r.encode.length) (hj : j < 8) :
    readLogRecord (flipAt r.encode i j) 0 = .err .InvalidLogRecordCrc := by
  obtain ⟨kb, vb, ty⟩ := r
  replace hbk : Bytes kb := hbk
  replace hbv : Bytes vb := hbv
  replace hne : ¬ (kb.length = 0 ∧ vb.length = 0) := hne
  replace hkl : kb.length < 2 ^ 32 := hkl
  replace hvl : vb.length < 2 ^ 32 := hvl
  replace hi : lengthDelimiterLen kb.length + lengthDelimiterLen vb.length + 1 ≤ i := hi
  have hcrc : (LogRecord.mk kb vb ty).getCrc < 2 ^ 32 := getCrc_lt _ hbk hbv
  have hencS : (LogRecord.mk kb vb ty).encode =
      (ty.toU8 :: (encodeVarint kb.length ++ encodeVarint vb.length)) ++
        (kb ++ vb ++ u32be (LogRecord.mk kb vb ty).getCrc) := by
    simp [LogRecord.encode, LogRecord.encodeBody, List.append_assoc]
  have hHlen : (ty.toU8 :: (encodeVarint kb.length ++ encodeVarint vb.length)).length =
      lengthDelimiterLen kb.length + lengthDelimiterLen vb.length + 1 := by
    simp only [List.length_cons, List.length_append, lengthDelimiterLen]
  have hmbound : i - (lengthDelimiterLen kb.length + lengthDelimiterLen vb.length + 1) <
      kb.length + vb.length + 4 := by
    have hel : (LogRecord.mk kb vb ty).encode.length =
        lengthDelimiterLen kb.length + lengthDelimiterLen vb.length + 1 +
          kb.length + vb.length + 4 := encode_length _
    omega
  have hflip : flipAt (LogRecord.mk kb vb ty).encode i j =
      (ty.toU8 :: (encodeVarint kb.length ++ encodeVarint vb.length)) ++
        flipAt (kb ++ vb ++ u32be (LogRecord.mk kb vb ty).getCrc)
          (i - (lengthDelimiterLen kb.length + lengthDelimiterLen vb.length + 1)) j := by
    rw [hencS, flipAt_append_right _ _ _ _ (by rw [hHlen]; exact hi), hHlen]
  set m := i - (lengthDelimiterLen kb.length + lengthDelimiterLen vb.length + 1) with hm
  set data := flipAt (kb ++ vb ++ u32be (LogRecord.mk kb vb ty).getCrc) m j with hdataeq
  have hdatalen : data.length = kb.length + vb.length + 4 := by
    rw [hdataeq, flipAt_length]
    simp only [List.length_append, u32be_length]
  have hbad : getU32be (data.drop (kb.length + vb.length)) ≠
      (LogRecord.mk (data.take kb.length)
        ((data.take (kb.length + vb.length)).drop kb.length) ty).getCrc := by
    by_cases hkv : m < kb.length + vb.length
    · have hdata2 : data = flipAt (kb ++ vb) m j ++ u32be (LogRecord.mk kb vb ty).getCrc := by
        rw [hdataeq,
          flipAt_append_left _ _ _ _ (by simp only [List.length_append]; omega)]
      have hflen : (flipAt (kb ++ vb) m j).length = kb.length + vb.length := by
        rw [flipAt_length]
        simp
      have htake : data.take (kb.length + vb.length) = flipAt (kb ++ vb) m j := by
        rw [hdata2]
        exact List.take_left' hflen
      have hdropc : data.drop (kb.length + vb.length) =
          u32be (LogRecord.mk kb vb ty).getCrc := by
        rw [hdata2]
        exact List.drop_left' hflen
      have htakeks : data.take kb.length = (flipAt (kb ++ vb) m j).take kb.length := by
        rw [hdata2, List.take_append_eq_append_take,
          show kb.length - (flipAt (kb ++ vb) m j).length = 0 by omega]
        simp
      rw [hdropc, htakeks, htake, getU32be_u32be _ hcrc]
      exact Ne.symm (getCrc_flip_ne kb vb ty m j
        (by simp only [List.length_append]; omega) hj)
    · have hdata2 : data = (kb ++ vb) ++
          flipAt (u32be (LogRecord.mk kb vb ty).getCrc) (m - (kb.length + vb.length)) j := by
        rw [hdataeq,
          flipAt_append_right _ _ _ _ (by simp only [List.length_append]; omega)]
        simp
      have hkvlen : (kb ++ vb).length = kb.length + vb.length := by simp
      have htake : data.take (kb.length + vb.length) = kb ++ vb := by
        rw [hdata2]
        exact List.take_left' hkvlen
      have hdropc : data.drop (kb.length + vb.length) =
          flipAt (u32be (LogRecord.mk kb vb ty).getCrc) (m - (kb.length + vb.length)) j := by
        rw [hdata2]
        exact List.drop_left' hkvlen
      have htakeks : data.take kb.length = kb := by
        rw [hdata2, List.take_append_eq_append_take,
          show kb.length - (kb ++ vb).length = 0 by simp only [List.length_append]; omega,
          List.take_zero, List.append_nil,
          List.take_append_eq_append_take, show kb.length - kb.length = 0 by omega,
          List.take_zero, List.append_nil, List.take_of_length_le (le_refl _)]
      have hvalue : (data.take (kb.length + vb.length)).drop kb.length = vb := by
        rw [htake]
        exact List.drop_left kb vb
      rw [hdropc, htakeks, hvalue]
      exact getU32be_flip_ne _ _ _ hcrc (by omega) hj
  have hres := readLogRecord_corrupt [] [] data ty kb.length vb.length hkl hvl hne
    hdatalen hbad
  simp only [List.nil_append, List.append_nil, List.length_nil] at hres
  rw [hflip]
  exact hres

/-- C6 witness: a flip of bit 0 of the first key byte (index 3, past the 3-byte
header) of a concrete encoded record is caught by the CRC. -/
theorem C6_crc_detects_data_flips_witness :
    (lengthDelimiterLen ([1] : List Nat).length +
        lengthDelimiterLen ([2] : List Nat).length + 1 ≤ 3 ∧
      3 < (LogRecord.mk [1] [2] .NORMAL).encode.length) ∧
    readLogRecord (flipAt (LogRecord.mk [1] [2] .NORMAL).encode 3 0) 0 =
      .err .InvalidLogRecordCrc := by
  refine ⟨⟨by decide, by decide⟩, ?_⟩
  exact C6_crc_detects_data_flips (LogRecord.mk [1] [2] .NORMAL) 3 0 (by decide) (by decide)
    (by decide) (by decide) (by decide) (by decide) (by decide) (by decide)

/-- C7: append rotates exactly when the active offset plus the encoded record
length strictly exceeds `data_file_size` (so a record exactly filling the segment
stays in it); on rotation the new active id is the old id plus one and the record
is written at offset 0 of the fresh segment; in every case the record's encoding
is appended to the end of the segment named by the returned locator. -/
theorem C7_rotation_policy (s : Engine) (record : LogRecord) :
    ((s.appendLogRecord record).2.activeId =
      if s.activeOff + record.encode.length > s.dataFileSize then s.activeId + 1
      else s.activeId) ∧
    (s.appendLogRecord record).1.file_id = (s.appendLogRecord record).2.activeId ∧
    ((s.appendLogRecord record).1.offset =
      if s.activeOff + record.encode.length > s.dataFileSize then 0 else s.activeOff) ∧
    fileContents (s.appendLogRecord record).2 (s.appendLogRecord record).1.file_id =
      fileContents s (s.appendLogRecord record).1.file_id ++ record.encode := by
  by_cases hrot : s.activeOff + record.encode.length > s.dataFileSize
  · rcases hl : alLookup s.files (s.activeId + 1) with _ | c
    · refine ⟨?_, ?_, ?_, ?_⟩ <;>
        simp [Engine.appendLogRecord, hrot, hl, fileContents, alLookup_insert_self]
    · refine ⟨?_, ?_, ?_, ?_⟩ <;>
        simp [Engine.appendLogRecord, hrot, hl, fileContents, alLookup_insert_self]
  · refine ⟨?_, ?_, ?_, ?_⟩ <;>
      simp [Engine.appendLogRecord, hrot, fileContents, alLookup_insert_self]

/-- C8 counterexample: with the index pointing key `[1]` at segment id 5 while the
active id is 0 and the older map is empty, get returns `FailedToOpenDataFile`, not
the `DataFileNotFound` the claim names. -/
theorem C8_unknown_segment_error_value :
    Engine.get ⟨1024, false, 0, 0, [(0, [])], [], [([1], ⟨5, 0⟩)], 1⟩ [1] =
      .err .FailedToOpenDataFile ∧
    Engine.get ⟨1024, false, 0, 0, [(0, [])], [], [([1], ⟨5, 0⟩)], 1⟩ [1] ≠
      .err .DataFileNotFound := by
  constructor
  · decide
  · decide

/-- C8 (amended): when get's index lookup yields a locator whose segment id is
neither the active segment's id nor a key of the older-segments map, get fails
with `FailedToOpenDataFile` (the code never produces `DataFileNotFound` here). -/
theorem C8_unknown_segment_fails_to_open (s : Engine) (key : List Nat)
    (pos : LogRecordPos) (hk : key ≠ []) (hlook : indexGet s.index key = some pos)
    (hact : pos.file_id ≠ s.activeId) (hold : pos.file_id ∉ s.olderIds) :
    s.get key = .err .FailedToOpenDataFile := by
  simp only [Engine.get, if_neg hk, hlook]
  simp only [Engine.getValueByPosition,
    if_neg (fun h : s.activeId = pos.file_id => hact h.symm), if_neg hold]

/-- C8 witness. -/
theorem C8_unknown_segment_fails_to_open_witness :
    (([1] : List Nat) ≠ [] ∧
      indexGet [([1], LogRecordPos.mk 5 0)] [1] = some (LogRecordPos.mk 5 0)) ∧
    Engine.get ⟨1024, false, 0, 0, [(0, [])], [], [([1], ⟨5, 0⟩)], 1⟩ [1] =
      .err .FailedToOpenDataFile := by
  refine ⟨⟨by decide, by decide⟩, ?_⟩
  exact C8_unknown_segment_fails_to_open _ [1] ⟨5, 0⟩ (by decide) (by decide) (by decide)
    (by decide)

/-- C9: put, get, and delete with an empty key each return `KeyIsEmpty` and leave
the engine state completely unchanged. -/
theorem C9_empty_key_rejection (s : Engine) (value : List Nat) :
    s.put [] value = (.err .KeyIsEmpty, s) ∧ s.get [] = .err .KeyIsEmpty ∧
    s.delete [] = (.err .KeyIsEmpty, s) :=
  ⟨rfl, rfl, rfl⟩

theorem appendLogRecord_no_rot (s : Engine) (record : LogRecord)
    (h : ¬ (s.activeOff + record.encode.length > s.dataFileSize)) :
    s.appendLogRecord record =
      (⟨s.activeId, s.activeOff⟩,
        { s with
          files := alInsert s.files s.activeId (fileContents s s.activeId ++ record.encode)
          activeOff := s.activeOff + record.encode.length }) := by
  simp [Engine.appendLogRecord, h]

/-- C10: `WriteBatch::delete` on a non-empty key absent from the engine index
returns ok and stages a DELETED record for the key (after first dropping any
previously staged entry), so committing the batch appends a tombstone record for
the key (followed by the transaction sentinel) to the active segment — whereas the
engine's own `delete` on the same absent key is a pure no-op. -/
theorem C10_batch_delete_stages_tombstone (s : Engine) (p : Pending) (key : List Nat)
    (o : WriteBatchOptions) (hk : key ≠ []) (habs : indexGet s.index key = none)
    (hmax : 1 ≤ o.maxBatchNum)
    (hroom : s.activeOff +
      (LogRecord.mk (logRecordKeyWithSeq key s.seqNo) [] .DELETED).encode.length +
      (LogRecord.mk (logRecordKeyWithSeq TXN_FINISH_KEY s.seqNo) []
        .TXNFINISH).encode.length ≤ s.dataFileSize) :
    (∃ p₂, WriteBatch.delete s p key = .ok p₂ ∧
      alLookup p₂ key = some (LogRecord.mk key [] .DELETED)) ∧
    s.delete key = (.ok (), s) ∧
    (∃ e₂, WriteBatch.commit s [(key, LogRecord.mk key [] .DELETED)] o = .ok (e₂, []) ∧
      fileContents e₂ s.activeId = fileContents s s.activeId ++
        (LogRecord.mk (logRecordKeyWithSeq key s.seqNo) [] .DELETED).encode ++
        (LogRecord.mk (logRecordKeyWithSeq TXN_FINISH_KEY s.seqNo) []
          .TXNFINISH).encode) := by
  refine ⟨?_, ?_, ?_⟩
  · have h1 : WriteBatch.delete s p key =
        .ok (alInsert (if (alLookup p key).isSome then alErase p key else p) key
          (LogRecord.mk key [] .DELETED)) := by
      simp only [WriteBatch.delete, if_neg hk, indexGet] at habs ⊢
      simp [habs]
    exact ⟨_, h1, alLookup_insert_self _ _ _⟩
  · simp only [Engine.delete, if_neg hk, habs]
  · set tombStaged : LogRecord := LogRecord.mk key [] .DELETED with htombS
    set tomb : LogRecord := LogRecord.mk (logRecordKeyWithSeq key s.seqNo) [] .DELETED
      with htomb
    set fin : LogRecord := LogRecord.mk (logRecordKeyWithSeq TXN_FINISH_KEY s.seqNo) []
      .TXNFINISH with hfin
    set s₀ : Engine := { s with seqNo := s.seqNo + 1 } with hs₀
    have hrot₁ : ¬ (s₀.activeOff + tomb.encode.length > s₀.dataFileSize) := by
      show ¬ (s.activeOff + tomb.encode.length > s.dataFileSize)
      omega
    have happ₁ := appendLogRecord_no_rot s₀ tomb hrot₁
    set s₁ : Engine := { s₀ with
      files := alInsert s₀.files s₀.activeId (fileContents s₀ s₀.activeId ++ tomb.encode)
      activeOff := s₀.activeOff + tomb.encode.length } with hs₁
    have hrot₂ : ¬ (s₁.activeOff + fin.encode.length > s₁.dataFileSize) := by
      show ¬ (s.activeOff + tomb.encode.length + fin.encode.length > s.dataFileSize)
      omega
    have happ₂ := appendLogRecord_no_rot s₁ fin hrot₂
    have hfc₁ : fileContents s₁ s₁.activeId = fileContents s s.activeId ++ tomb.encode := by
      show (alLookup (alInsert s₀.files s₀.activeId
        (fileContents s₀ s₀.activeId ++ tomb.encode)) s₀.activeId).getD [] = _
      rw [alLookup_insert_self]
      rfl
    have hcommit : WriteBatch.commit s [(key, tombStaged)] o =
        .ok ({ s₁ with
          files := alInsert s₁.files s₁.activeId (fileContents s₁ s₁.activeId ++ fin.encode)
          activeOff := s₁.activeOff + fin.encode.length
          index := alErase s₁.index key }, []) := by
      have hl0 : ¬ (([(key, tombStaged)] : Pending).length = 0) := by simp
      have hl1 : ¬ (([(key, tombStaged)] : Pending).length > o.maxBatchNum) := by
        simp only [List.length_cons, List.length_nil]
        omega
      simp only [WriteBatch.commit, if_neg hl0, if_neg hl1, List.foldl_cons, List.foldl_nil]
      rw [show (LogRecord.mk (logRecordKeyWithSeq tombStaged.key s.seqNo) tombStaged.value
        tombStaged.rec_type) = tomb from rfl]
      rw [happ₁]
      rw [happ₂]
      simp only [commitIndexUpdates, alLookup_insert_self]
      rfl
    refine ⟨_, hcommit, ?_⟩
    show (alLookup (alInsert s₁.files s₁.activeId
      (fileContents s₁ s₁.activeId ++ fin.encode)) s₁.activeId).getD [] = _
    rw [alLookup_insert_self, hfc₁]
    rfl

/-- C10 witness. -/
theorem C10_batch_delete_stages_tombstone_witness :
    (([1] : List Nat) ≠ [] ∧ indexGet freshEngine.index [1] = none ∧
      1 ≤ demoWBOptions.maxBatchNum ∧
      freshEngine.activeOff +
        (LogRecord.mk (logRecordKeyWithSeq [1] freshEngine.seqNo) [] .DELETED).encode.length +
        (LogRecord.mk (logRecordKeyWithSeq TXN_FINISH_KEY freshEngine.seqNo) []
          .TXNFINISH).encode.length ≤ freshEngine.dataFileSize) ∧
    ((∃ p₂, WriteBatch.delete freshEngine [] [1] = .ok p₂ ∧
        alLookup p₂ [1] = some (LogRecord.mk [1] [] .DELETED)) ∧
      freshEngine.delete [1] = (.ok (), freshEngine) ∧
      (∃ e₂, WriteBatch.commit freshEngine [([1], LogRecord.mk [1] [] .DELETED)]
          demoWBOptions = .ok (e₂, []) ∧
        fileContents e₂ freshEngine.activeId = fileContents freshEngine freshEngine.activeId ++
          (LogRecord.mk (logRecordKeyWithSeq [1] freshEngine.seqNo) [] .DELETED).encode ++
          (LogRecord.mk (logRecordKeyWithSeq TXN_FINISH_KEY freshEngine.seqNo) []
            .TXNFINISH).encode)) := by
  refine ⟨⟨by decide, by decide, by decide, by decide⟩, ?_⟩
  exact C10_batch_delete_stages_tombstone freshEngine [] [1] demoWBOptions (by decide)
    (by decide) (by decide) (by decide)

end KV
